import Mathlib

/-!
Verification of the in-memory appointment system in `multi_agent.py`.

The data model (doctors, appointments, global store), the agent tool
operations (`reserve_slot`, `book_appointment`, `list_appointments`,
`cancel_appointment`) and the regex-based message extractors are embedded
as executable Lean definitions, translated line by line from the Python
source.  Consultation fees are integral in the seed data and are modelled
as natural numbers.  Python `list.sort()` on strings is lexicographic by
code point; the executable comparison `strLe` below implements that order
and is proved to agree with the `LinearOrder String` instance.  Since equal
strings are indistinguishable, any sorting algorithm for that order
produces the same list, so `List.insertionSort` with `strLe` is a faithful
model of the sort.
-/

/-- Substring test on character lists: Python `needle in hay`. -/
def containsSub (needle : List Char) : List Char → Bool
  | [] => needle.isPrefixOf []
  | c :: t => needle.isPrefixOf (c :: t) || containsSub needle t

/-- Python `needle in hay` on strings (case sensitive). -/
def substrOf (needle hay : String) : Bool :=
  containsSub needle.data hay.data

/-- Python `s.lower()`: lowercase every character. -/
def lowerStr (s : String) : String :=
  String.mk (s.data.map Char.toLower)

/-- Python `s.upper()`: uppercase every character. -/
def upperStr (s : String) : String :=
  String.mk (s.data.map Char.toUpper)

/-- Python `needle.lower() in hay.lower()`. -/
def substrCI (needle hay : String) : Bool :=
  substrOf (lowerStr needle) (lowerStr hay)

/-- Decimal digit characters of a natural number, most significant
first, with explicit fuel so that the recursion is structural; fuel
strictly above the value is always enough because dividing by ten
strictly decreases it. -/
def decDigitsFuel : Nat → Nat → List Char
  | 0, _ => []
  | fuel + 1, n =>
    if n < 10 then [Nat.digitChar n]
    else decDigitsFuel fuel (n / 10) ++ [Nat.digitChar (n % 10)]

/-- Decimal digit list of a natural number (the digit sequence produced
by Python decimal formatting). -/
def toDecDigits (n : Nat) : List Char :=
  decDigitsFuel (n + 1) n

/-- Python format `f"{n:04d}"`: pad the decimal digits with leading
zeros to a minimum width of 4. -/
def pad4 (n : Nat) : List Char :=
  List.replicate (4 - (toDecDigits n).length) '0' ++ toDecDigits n

/-- Appointment identifier from a counter value: Python
`f"APT{counter:04d}"`. -/
def formatAptId (n : Nat) : String :=
  String.mk ('A' :: 'P' :: 'T' :: pad4 n)

/-- `AppointmentStatus` enum of the source. -/
inductive AppointmentStatus where
  | scheduled
  | confirmed
  | cancelled
  | completed
deriving DecidableEq, Repr

/-- `Doctor` dataclass of the source. -/
structure Doctor where
  id : String
  name : String
  specialty : String
  available_slots : List String
  consultation_fee : Nat
deriving DecidableEq, Repr

/-- `Appointment` dataclass of the source. -/
structure Appointment where
  id : String
  doctor_id : String
  doctor_name : String
  patient_name : String
  patient_phone : Option String
  appointment_time : String
  specialty : String
  status : AppointmentStatus
  consultation_fee : Nat
  notes : Option String
deriving DecidableEq, Repr

/-- `GlobalDataStore` of the source. -/
structure GlobalDataStore where
  doctors : List Doctor
  appointments : List Appointment
  appointment_counter : Nat
deriving DecidableEq, Repr

/-- The seed store built by `GlobalDataStore.__init__`. -/
def data_store : GlobalDataStore where
  doctors :=
    [ { id := "dr001", name := "Dr. Sarah Johnson", specialty := "Cardiology",
        available_slots := ["2025-05-29 09:00", "2025-05-29 14:00", "2025-05-30 10:00"],
        consultation_fee := 150 },
      { id := "dr002", name := "Dr. Michael Chen", specialty := "Dermatology",
        available_slots := ["2025-05-29 11:00", "2025-05-29 15:30", "2025-05-30 09:30"],
        consultation_fee := 120 },
      { id := "dr003", name := "Dr. Emily Rodriguez", specialty := "Pediatrics",
        available_slots := ["2025-05-29 13:00", "2025-05-30 11:00", "2025-05-30 16:00"],
        consultation_fee := 100 },
      { id := "dr004", name := "Dr. James Wilson", specialty := "Orthopedics",
        available_slots := ["2025-05-29 10:00", "2025-05-30 14:00", "2025-05-31 09:00"],
        consultation_fee := 180 } ]
  appointments := []
  appointment_counter := 1

/-- The loop body of `reserve_slot`: walk the doctor list, and at the
first doctor whose id matches and whose slot list contains the requested
slot, remove that slot (Python `list.remove` removes the first
occurrence) and report the updated doctor record; otherwise leave the
list unchanged and report failure. -/
def reserveSlotAux (doctor_id slot : String) : List Doctor → List Doctor × Option Doctor
  | [] => ([], none)
  | d :: ds =>
    if d.id == doctor_id && d.available_slots.contains slot then
      let d' : Doctor := { d with available_slots := d.available_slots.erase slot }
      (d' :: ds, some d')
    else
      let r := reserveSlotAux doctor_id slot ds
      (d :: r.1, r.2)

/-- `reserve_slot` tool: `some d` is the success confirmation carrying
the updated doctor record (hence the consultation fee); `none` is the
"slot not available or doctor not found" failure. -/
def reserve_slot (s : GlobalDataStore) (doctor_id slot : String) :
    GlobalDataStore × Option Doctor :=
  let r := reserveSlotAux doctor_id slot s.doctors
  ({ s with doctors := r.1 }, r.2)

/-- The `time_patterns` table inside `book_appointment`. -/
def timePatterns : List (String × List String) :=
  [ ("morning", ["09:00", "10:00", "11:00"]),
    ("afternoon", ["14:00", "15:00", "16:00"]),
    ("evening", ["17:00", "18:00"]) ]

/-- The preference-driven part of slot selection inside
`book_appointment`: a named bucket takes the first slot containing one
of the bucket markers, any other given preference takes the first slot
containing it literally. -/
def pickPreferred (preferred_time : Option String) (slots : List String) : Option String :=
  match preferred_time with
  | none => none
  | some t =>
    match timePatterns.lookup t with
    | some markers => slots.find? (fun slot => markers.any (fun m => substrOf m slot))
    | none => slots.find? (fun slot => substrOf t slot)

/-- Slot selection for one doctor inside `book_appointment`: the
preference-driven pick if any, otherwise the first available slot. -/
def selectSlot (preferred_time : Option String) (slots : List String) : Option String :=
  match pickPreferred preferred_time slots with
  | some sl => some sl
  | none => slots.head?

/-- The doctor loop of `book_appointment`: doctors with an empty slot
list are skipped, and the first doctor for which a slot resolves wins. -/
def findBooking (preferred_time : Option String) : List Doctor → Option (Doctor × String)
  | [] => none
  | d :: ds =>
    if d.available_slots.isEmpty then findBooking preferred_time ds
    else
      match selectSlot preferred_time d.available_slots with
      | some sl => some (d, sl)
      | none => findBooking preferred_time ds

/-- Result of `book_appointment`. -/
inductive BookResult where
  | noDoctors
  | noAvailability
  | booked (a : Appointment)
deriving DecidableEq, Repr

/-- Replace the first list element satisfying `p` by its image under
`f` (the pure form of the Python pattern of mutating the first matching
object of a list and breaking out of the loop). -/
def modifyFirst (p : α → Bool) (f : α → α) : List α → List α
  | [] => []
  | x :: xs => if p x then f x :: xs else x :: modifyFirst p f xs

/-- Doctor filtering at the top of `book_appointment`: keep doctors
whose specialty contains the requested one case-insensitively. -/
def candidateDoctors (s : GlobalDataStore) (specialty : Option String) : List Doctor :=
  match specialty with
  | none => s.doctors
  | some sp => s.doctors.filter (fun d => substrCI sp d.specialty)

/-- The appointment record created by `book_appointment` for the chosen
doctor and slot; the id comes from the current counter. -/
def mkAppointment (s : GlobalDataStore) (patient_name : String)
    (patient_phone : Option String) (d : Doctor) (sl : String) : Appointment :=
  { id := formatAptId s.appointment_counter, doctor_id := d.id,
    doctor_name := d.name, patient_name := patient_name,
    patient_phone := patient_phone, appointment_time := sl,
    specialty := d.specialty, status := .scheduled,
    consultation_fee := d.consultation_fee, notes := none }

/-- `book_appointment` tool. -/
def book_appointment (s : GlobalDataStore) (patient_name : String)
    (specialty preferred_time patient_phone : Option String) :
    GlobalDataStore × BookResult :=
  if (candidateDoctors s specialty).isEmpty then (s, .noDoctors)
  else
    match findBooking preferred_time (candidateDoctors s specialty) with
    | none => (s, .noAvailability)
    | some (d, sl) =>
      ({ s with
          doctors := modifyFirst (fun x => x.id == d.id)
            (fun x => { x with available_slots := x.available_slots.erase sl }) s.doctors,
          appointments := s.appointments ++ [mkAppointment s patient_name patient_phone d sl],
          appointment_counter := s.appointment_counter + 1 },
        .booked (mkAppointment s patient_name patient_phone d sl))

/-- Result of `list_appointments`: the three branches of the source. -/
inductive ListAptResult where
  | noneScheduled
  | noneMatched (patient_name : Option String)
  | listing (apts : List Appointment)
deriving DecidableEq, Repr

/-- `list_appointments` tool. -/
def list_appointments (s : GlobalDataStore) (patient_name : Option String) :
    ListAptResult :=
  if s.appointments.isEmpty then .noneScheduled
  else
    let filtered : List Appointment :=
      match patient_name with
      | none => s.appointments
      | some pn => s.appointments.filter (fun a => substrCI pn a.patient_name)
    if filtered.isEmpty then .noneMatched patient_name
    else .listing filtered

/-- Result of `cancel_appointment`. -/
inductive CancelResult where
  | success
  | alreadyCancelled
  | notFound
deriving DecidableEq, Repr

/-- Code-point lexicographic comparison of character lists (the string
order Python uses when sorting slot strings).  Defined directly so that
it evaluates in the kernel. -/
def charListLe : List Char → List Char → Bool
  | [], _ => true
  | _ :: _, [] => false
  | c1 :: t1, c2 :: t2 => if c1 = c2 then charListLe t1 t2 else decide (c1 < c2)

/-- Code-point lexicographic comparison of strings. -/
def strLe (a b : String) : Bool :=
  charListLe a.data b.data

/-- Releasing a slot back to its doctor inside `cancel_appointment`:
append the slot to the available list of the first doctor with the
matching id and sort the list. -/
def releaseSlot (doctor_id slot : String) (ds : List Doctor) : List Doctor :=
  modifyFirst (fun d => d.id == doctor_id)
    (fun d => { d with
      available_slots := List.insertionSort (fun a b => strLe a b = true)
        (d.available_slots ++ [slot]) }) ds

/-- The appointment loop of `cancel_appointment`. -/
def cancelAux (appointment_id : String) (ds : List Doctor) :
    List Appointment → List Doctor × List Appointment × CancelResult
  | [] => (ds, [], .notFound)
  | a :: as =>
    if a.id == appointment_id then
      if a.status = .cancelled then (ds, a :: as, .alreadyCancelled)
      else
        (releaseSlot a.doctor_id a.appointment_time ds,
         { a with status := .cancelled } :: as, .success)
    else
      let r := cancelAux appointment_id ds as
      (r.1, a :: r.2.1, r.2.2)

/-- `cancel_appointment` tool. -/
def cancel_appointment (s : GlobalDataStore) (appointment_id : String) :
    GlobalDataStore × CancelResult :=
  let r := cancelAux appointment_id s.doctors s.appointments
  ({ s with doctors := r.1, appointments := r.2.1 }, r.2.2)

/-- The operations that touch the store.  The directory listing and
slot query operations read but never write, so they carry no payload
relevant to the state. -/
inductive Op where
  | reserve (doctor_id slot : String)
  | book (patient_name : String) (specialty preferred_time patient_phone : Option String)
  | cancel (appointment_id : String)
  | listDoctors (specialty : Option String)
  | getSlots (doctor_id : String)
  | listAppointments (patient_name : Option String)

/-- State effect of one operation. -/
def stepOp (s : GlobalDataStore) : Op → GlobalDataStore
  | .reserve did slot => (reserve_slot s did slot).1
  | .book pn sp pt ph => (book_appointment s pn sp pt ph).1
  | .cancel aid => (cancel_appointment s aid).1
  | .listDoctors _ => s
  | .getSlots _ => s
  | .listAppointments _ => s

/-- Run a sequence of operations from a store. -/
def runOps (s : GlobalDataStore) (ops : List Op) : GlobalDataStore :=
  ops.foldl stepOp s

/-- The keyword table of `MessageParser.extract_specialty` (Python dicts
preserve insertion order, so the table order is the tie-break). -/
def specialtiesTable : List (String × List String) :=
  [ ("cardiology", ["cardiology", "cardiologist", "heart", "cardiac"]),
    ("dermatology", ["dermatology", "dermatologist", "skin"]),
    ("pediatrics", ["pediatrics", "pediatrician", "child", "children", "kids"]),
    ("orthopedics", ["orthopedics", "orthopedic", "bone", "joint"]),
    ("neurology", ["neurology", "neurologist", "brain", "nerve"]) ]

/-- `MessageParser.extract_specialty`. -/
def extract_specialty (message : String) : Option String :=
  let ml := lowerStr message
  (specialtiesTable.find? (fun p => p.2.any (fun k => substrOf k ml))).map (·.1)

/-- The keyword table of `MessageParser.extract_time_preference`. -/
def timePreferenceTable : List (String × List String) :=
  [ ("morning", ["morning", "9:00", "10:00", "11:00"]),
    ("afternoon", ["afternoon", "14:00", "15:00", "16:00"]),
    ("evening", ["evening", "17:00", "18:00"]) ]

/-- `MessageParser.extract_time_preference`. -/
def extract_time_preference (message : String) : Option String :=
  let ml := lowerStr message
  (timePreferenceTable.find? (fun p => p.2.any (fun k => substrOf k ml))).map (·.1)

/-- Match the captured group `([A-Za-z]+(?:\s+[A-Za-z]+)?)` at the head
of the character list: one run of ASCII letters, optionally followed by
whitespace and a second run (both greedy, as in the regex). -/
def matchName (l : List Char) : Option (List Char) :=
  let w1 := l.takeWhile Char.isAlpha
  if w1.isEmpty then none
  else
    let rest := l.drop w1.length
    let ws := rest.takeWhile Char.isWhitespace
    let w2 := (rest.drop ws.length).takeWhile Char.isAlpha
    if ws.isEmpty || w2.isEmpty then some w1
    else some (w1 ++ ws ++ w2)

/-- Match `kw` case-insensitively at the head of the list (`kw` is given
in lowercase), then `\s+`, then the name group. -/
def matchKwName (kw : List Char) (l : List Char) : Option (List Char) :=
  if (l.take kw.length).map Char.toLower = kw then
    let rest := l.drop kw.length
    let ws := rest.takeWhile Char.isWhitespace
    if ws.isEmpty then none else matchName (rest.drop ws.length)
  else none

/-- Match `kw1` then `\s+` then `kw2` then `\s+` then the name group at
the head of the list. -/
def matchKw2Name (kw1 kw2 : List Char) (l : List Char) : Option (List Char) :=
  if (l.take kw1.length).map Char.toLower = kw1 then
    let rest := l.drop kw1.length
    let ws := rest.takeWhile Char.isWhitespace
    if ws.isEmpty then none else matchKwName kw2 (rest.drop ws.length)
  else none

/-- `re.search` scan: try the position matcher at each suffix, taking
the leftmost success. -/
def scanFor (att : List Char → Option (List Char)) : List Char → Option (List Char)
  | [] => att []
  | c :: t =>
    match att (c :: t) with
    | some r => some r
    | none => scanFor att t

/-- Pattern 1 of `extract_patient_name`:
`(?:for|patient)\s+([A-Za-z]+(?:\s+[A-Za-z]+)?)` at one position (the
alternation tries `for` first). -/
def tryPatternFor (l : List Char) : Option (List Char) :=
  match matchKwName "for".data l with
  | some r => some r
  | none => matchKwName "patient".data l

/-- Python `str.title()`: uppercase a letter that follows a non-letter,
lowercase every other letter. -/
def titleAux : Bool → List Char → List Char
  | _, [] => []
  | prevAlpha, c :: t =>
    (if c.isAlpha then (if prevAlpha then c.toLower else c.toUpper) else c)
      :: titleAux c.isAlpha t

/-- `str.title()` on a captured group. -/
def titleCase (l : List Char) : String :=
  String.mk (titleAux false l)

/-- The status emoji table of `list_appointments` (total over the four
statuses, so the dict default is never taken). -/
def statusEmoji : AppointmentStatus → String
  | .scheduled => "🗓️"
  | .confirmed => "✅"
  | .cancelled => "❌"
  | .completed => "✔️"

/-- The `.value` strings of the `AppointmentStatus` enum. -/
def statusValue : AppointmentStatus → String
  | .scheduled => "scheduled"
  | .confirmed => "confirmed"
  | .cancelled => "cancelled"
  | .completed => "completed"

/-- The decorative separator line of the source. -/
def sepLine : String := "━━━━━━━━━━━━━━━━━━━━━━━━━━━━━━━━"

/-- The filter description appended to the no-match message. -/
def filterDesc : Option String → String
  | some p => " for " ++ p
  | none => ""

/-- One appointment block of the listing text. -/
def renderAppointment (apt : Appointment) : String :=
  statusEmoji apt.status ++ " " ++ apt.id ++ " | " ++ apt.patient_name ++ "\n" ++
  "   👨‍⚕️ " ++ apt.doctor_name ++ " (" ++ apt.specialty ++ ")\n" ++
  "   🕐 " ++ apt.appointment_time ++ " | 💰 $" ++ toString apt.consultation_fee ++ "\n" ++
  "   📊 Status: " ++ titleCase (statusValue apt.status).data ++ "\n" ++
  (match apt.patient_phone with
   | some ph => "   📞 " ++ ph ++ "\n"
   | none => "") ++
  sepLine ++ "\n"

/-- The response text of `list_appointments` for each result. -/
def renderListResult : ListAptResult → String
  | .noneScheduled => "📅 No appointments scheduled"
  | .noneMatched pn => "📅 No appointments found" ++ filterDesc pn
  | .listing apts =>
    "📅 Scheduled Appointments:\n" ++ sepLine ++ "\n" ++
      String.join (apts.map renderAppointment)

/-- `MessageParser.extract_patient_name`: the three regex patterns tried
in priority order, the first match wins, and the captured group is
title-cased. -/
def extract_patient_name (message : String) : Option String :=
  let cs := message.data
  match scanFor tryPatternFor cs with
  | some r => some (titleCase r)
  | none =>
    match scanFor (matchKw2Name "appointment".data "for".data) cs with
    | some r => some (titleCase r)
    | none => (scanFor (matchKwName "book".data) cs).map titleCase

/-- Match `(dr\d+)` at one position of the lowered message: literal
`dr` then a maximal nonempty digit run. -/
def matchDrAt : List Char → Option (List Char)
  | c1 :: c2 :: rest =>
    if c1 = 'd' ∧ c2 = 'r' then
      let digits := rest.takeWhile Char.isDigit
      if digits.isEmpty then none else some ('d' :: 'r' :: digits)
    else none
  | _ => none

/-- `MessageParser.extract_doctor_id`: `re.search(r'(dr\d+)', message.lower())`. -/
def extract_doctor_id (message : String) : Option String :=
  (scanFor matchDrAt (lowerStr message).data).map String.mk

/-- Match `(\d{4}-\d{2}-\d{2}\s+\d{2}:\d{2})` at one position. -/
def matchSlotAt (l : List Char) : Option (List Char) :=
  let d1 := l.take 4
  if d1.length = 4 ∧ d1.all Char.isDigit then
    match l.drop 4 with
    | '-' :: r1 =>
      let d2 := r1.take 2
      if d2.length = 2 ∧ d2.all Char.isDigit then
        match r1.drop 2 with
        | '-' :: r2 =>
          let d3 := r2.take 2
          if d3.length = 2 ∧ d3.all Char.isDigit then
            let ws := (r2.drop 2).takeWhile Char.isWhitespace
            if ws.isEmpty then none
            else
              let r3 := (r2.drop 2).drop ws.length
              let d4 := r3.take 2
              if d4.length = 2 ∧ d4.all Char.isDigit then
                match r3.drop 2 with
                | ':' :: r4 =>
                  let d5 := r4.take 2
                  if d5.length = 2 ∧ d5.all Char.isDigit then
                    some (d1 ++ '-' :: d2 ++ '-' :: d3 ++ ws ++ d4 ++ ':' :: d5)
                  else none
                | _ => none
              else none
          else none
        | _ => none
      else none
    | _ => none
  else none

/-- `MessageParser.extract_appointment_slot`. -/
def extract_appointment_slot (message : String) : Option String :=
  (scanFor matchSlotAt message.data).map String.mk

/-- Match `(APT\d{4})` at one position of the uppercased message. -/
def matchAptAt : List Char → Option (List Char)
  | c1 :: c2 :: c3 :: d1 :: d2 :: d3 :: d4 :: _ =>
    if c1 = 'A' ∧ c2 = 'P' ∧ c3 = 'T' ∧
        d1.isDigit ∧ d2.isDigit ∧ d3.isDigit ∧ d4.isDigit then
      some [c1, c2, c3, d1, d2, d3, d4]
    else none
  | _ => none

/-- Appointment-id extraction in `process_user_message`:
`re.search(r'(APT\d{4})', message.upper())`. -/
def extract_appointment_id (message : String) : Option String :=
  (scanFor matchAptAt (upperStr message).data).map String.mk

/-- The dr001 record after its 14:00 slot has been removed; a concrete
record used by witness statements. -/
def dr001Reserved : Doctor :=
  { id := "dr001", name := "Dr. Sarah Johnson", specialty := "Cardiology",
    available_slots := ["2025-05-29 09:00", "2025-05-30 10:00"],
    consultation_fee := 150 }

/-- The store after booking one appointment for John on the seed data;
a concrete store used by witness statements. -/
def bookedStore : GlobalDataStore :=
  (book_appointment data_store "John" none none none).1

/-- The appointment created by that booking. -/
def aptJohn : Appointment :=
  { id := "APT0001", doctor_id := "dr001", doctor_name := "Dr. Sarah Johnson",
    patient_name := "John", patient_phone := none,
    appointment_time := "2025-05-29 09:00", specialty := "Cardiology",
    status := .scheduled, consultation_fee := 150, notes := none }

/-- The dr001 record inside that store (its first slot was taken). -/
def dr001Booked : Doctor :=
  { id := "dr001", name := "Dr. Sarah Johnson", specialty := "Cardiology",
    available_slots := ["2025-05-29 14:00", "2025-05-30 10:00"],
    consultation_fee := 150 }

/-- The seed doctors other than dr001. -/
def drRest : List Doctor :=
  data_store.doctors.drop 1

/-- A doctor whose only slot is a morning slot; used by witnesses. -/
def drMorningOnly : Doctor :=
  { id := "dr001", name := "Dr. Sarah Johnson", specialty := "Cardiology",
    available_slots := ["2025-05-29 09:00"], consultation_fee := 150 }

/-- A doctor whose only slot is an afternoon slot; used by witnesses. -/
def drAfternoonOnly : Doctor :=
  { id := "dr003", name := "Dr. Emily Rodriguez", specialty := "Pediatrics",
    available_slots := ["2025-05-30 16:00"], consultation_fee := 100 }

/-- Numeric value of a decimal digit string (used to invert the id
formatting). -/
def digitsVal (l : List Char) : Nat :=
  l.foldl (fun acc c => acc * 10 + (c.toNat - 48)) 0

/-- The store invariant maintained by every operation: doctor ids are
unique, each slot list has no duplicates, the counter is one above the
ledger length, the ledger ids are exactly the formatted counters 1..N
in order, no non-cancelled appointment's slot is available at its
doctor, and two non-cancelled appointments of one doctor never share a
slot. -/
def StoreInv (s : GlobalDataStore) : Prop :=
  (s.doctors.map Doctor.id).Nodup ∧
  (∀ d ∈ s.doctors, d.available_slots.Nodup) ∧
  s.appointment_counter = s.appointments.length + 1 ∧
  s.appointments.map Appointment.id =
    (List.range' 1 s.appointments.length).map formatAptId ∧
  (∀ a ∈ s.appointments, a.status ≠ AppointmentStatus.cancelled →
    ∀ d ∈ s.doctors, d.id = a.doctor_id → a.appointment_time ∉ d.available_slots) ∧
  s.appointments.Pairwise (fun a b =>
    a.status ≠ AppointmentStatus.cancelled →
    b.status ≠ AppointmentStatus.cancelled →
    a.doctor_id = b.doctor_id → a.appointment_time ≠ b.appointment_time)

/-- The position matcher for the appointment-id pattern succeeds exactly
on lists starting with APT and four digits. -/
theorem matchAptAt_eq_some_iff {l r : List Char} :
    matchAptAt l = some r ↔
    ∃ d1 d2 d3 d4 rest, l = 'A' :: 'P' :: 'T' :: d1 :: d2 :: d3 :: d4 :: rest ∧
      d1.isDigit ∧ d2.isDigit ∧ d3.isDigit ∧ d4.isDigit ∧
      r = ['A', 'P', 'T', d1, d2, d3, d4] := by
  constructor
  · intro h
    rcases l with _ | ⟨c1, _ | ⟨c2, _ | ⟨c3, _ | ⟨d1, _ | ⟨d2, _ | ⟨d3, _ | ⟨d4, rest⟩⟩⟩⟩⟩⟩⟩ <;>
      simp [matchAptAt] at h
    obtain ⟨⟨rfl, rfl, rfl, h1, h2, h3, h4⟩, hr⟩ := h
    exact ⟨d1, d2, d3, d4, rest, rfl, h1, h2, h3, h4, hr.symm⟩
  · rintro ⟨d1, d2, d3, d4, rest, rfl, h1, h2, h3, h4, rfl⟩
    simp [matchAptAt, h1, h2, h3, h4]

/-- The scan for the appointment-id pattern succeeds exactly when the
list contains APT followed by four digits, and the value is APT plus the
first four of those digits. -/
theorem scanApt_spec (cs : List Char) :
    ((scanFor matchAptAt cs).isSome ↔
      ∃ l1 d1 d2 d3 d4 l2, cs = l1 ++ 'A' :: 'P' :: 'T' :: d1 :: d2 :: d3 :: d4 :: l2 ∧
        d1.isDigit ∧ d2.isDigit ∧ d3.isDigit ∧ d4.isDigit) ∧
    ∀ r, scanFor matchAptAt cs = some r →
      ∃ l1 d1 d2 d3 d4 l2, cs = l1 ++ 'A' :: 'P' :: 'T' :: d1 :: d2 :: d3 :: d4 :: l2 ∧
        d1.isDigit ∧ d2.isDigit ∧ d3.isDigit ∧ d4.isDigit ∧
        r = ['A', 'P', 'T', d1, d2, d3, d4] := by
  induction cs with
  | nil =>
    constructor
    · simp only [scanFor, matchAptAt, Option.isSome_none]
      constructor
      · intro h; exact absurd h (by simp)
      · rintro ⟨l1, d1, d2, d3, d4, l2, h, -⟩
        exact absurd h (by simp)
    · intro r h
      simp only [scanFor, matchAptAt] at h
      exact absurd h (by simp)
  | cons c t ih =>
    have hstep : scanFor matchAptAt (c :: t) =
        match matchAptAt (c :: t) with
        | some r => some r
        | none => scanFor matchAptAt t := rfl
    cases hm : matchAptAt (c :: t) with
    | some r0 =>
      obtain ⟨d1, d2, d3, d4, rest, hl, h1, h2, h3, h4, hr⟩ := matchAptAt_eq_some_iff.mp hm
      constructor
      · rw [hstep, hm]
        simp only [Option.isSome_some, true_iff]
        exact ⟨[], d1, d2, d3, d4, rest, by simpa using hl, h1, h2, h3, h4⟩
      · intro r h
        rw [hstep, hm] at h
        obtain rfl : r0 = r := by simpa using h
        exact ⟨[], d1, d2, d3, d4, rest, by simpa using hl, h1, h2, h3, h4, hr⟩
    | none =>
      constructor
      · rw [hstep, hm]
        rw [ih.1]
        constructor
        · rintro ⟨l1, d1, d2, d3, d4, l2, rfl, h1, h2, h3, h4⟩
          exact ⟨c :: l1, d1, d2, d3, d4, l2, rfl, h1, h2, h3, h4⟩
        · rintro ⟨l1, d1, d2, d3, d4, l2, hl, h1, h2, h3, h4⟩
          rcases l1 with _ | ⟨c', l1⟩
          · exfalso
            have : matchAptAt (c :: t) = some ['A', 'P', 'T', d1, d2, d3, d4] :=
              matchAptAt_eq_some_iff.mpr ⟨d1, d2, d3, d4, l2, by simpa using hl, h1, h2, h3, h4, rfl⟩
            rw [hm] at this; exact absurd this (by simp)
          · rw [List.cons_append] at hl
            injection hl with hc ht
            exact ⟨l1, d1, d2, d3, d4, l2, ht, h1, h2, h3, h4⟩
      · intro r h
        rw [hstep, hm] at h
        obtain ⟨l1, d1, d2, d3, d4, l2, hl, h1, h2, h3, h4, hr⟩ := ih.2 r h
        exact ⟨c :: l1, d1, d2, d3, d4, l2, by rw [hl]; rfl, h1, h2, h3, h4, hr⟩

/-- The loop condition of the reserve loop in propositional form. -/
theorem reserveCond_iff (d : Doctor) (did slot : String) :
    (d.id == did && d.available_slots.contains slot) = true ↔
      d.id = did ∧ slot ∈ d.available_slots := by
  simp [List.contains]

/-- Full behaviour of the reserve loop: failure leaves the doctor list
untouched and happens exactly when no doctor matches id and slot;
success rewrites the first matching doctor, erasing the slot. -/
theorem reserveSlotAux_spec (did slot : String) (ds : List Doctor) :
    ((reserveSlotAux did slot ds).2 = none →
       (reserveSlotAux did slot ds).1 = ds ∧
       ∀ d ∈ ds, ¬(d.id = did ∧ slot ∈ d.available_slots)) ∧
    ((∀ d ∈ ds, ¬(d.id = did ∧ slot ∈ d.available_slots)) →
       (reserveSlotAux did slot ds).2 = none) ∧
    (∀ dres, (reserveSlotAux did slot ds).2 = some dres →
       ∃ pre d post, ds = pre ++ d :: post ∧
         (∀ x ∈ pre, ¬(x.id = did ∧ slot ∈ x.available_slots)) ∧
         d.id = did ∧ slot ∈ d.available_slots ∧
         dres = { d with available_slots := d.available_slots.erase slot } ∧
         (reserveSlotAux did slot ds).1 = pre ++ dres :: post) := by
  induction ds with
  | nil => simp [reserveSlotAux]
  | cons d ds ih =>
    by_cases hc : (d.id == did && d.available_slots.contains slot) = true
    · have hprop := (reserveCond_iff d did slot).mp hc
      have hres : reserveSlotAux did slot (d :: ds) =
          ({ d with available_slots := d.available_slots.erase slot } :: ds,
           some { d with available_slots := d.available_slots.erase slot }) := by
        simp only [reserveSlotAux]
        rw [if_pos hc]
      refine ⟨?_, ?_, ?_⟩
      · intro h; rw [hres] at h; exact absurd h (by simp)
      · intro hall
        exact absurd hprop (hall d (by simp))
      · intro dres h
        rw [hres] at h
        obtain rfl : ({ d with available_slots := d.available_slots.erase slot } : Doctor)
            = dres := by simpa using h
        exact ⟨[], d, ds, rfl, by simp, hprop.1, hprop.2, rfl, by rw [hres]; simp⟩
    · have hres : reserveSlotAux did slot (d :: ds) =
          (d :: (reserveSlotAux did slot ds).1, (reserveSlotAux did slot ds).2) := by
        simp only [reserveSlotAux]
        rw [if_neg hc]
      have hdnot : ¬(d.id = did ∧ slot ∈ d.available_slots) := fun hp =>
        hc ((reserveCond_iff d did slot).mpr hp)
      refine ⟨?_, ?_, ?_⟩
      · intro h
        rw [hres] at h
        obtain ⟨h1, h2⟩ := ih.1 h
        refine ⟨by rw [hres]; simpa using h1, ?_⟩
        intro x hx
        rcases List.mem_cons.mp hx with rfl | hx'
        · exact hdnot
        · exact h2 x hx'
      · intro hall
        rw [hres]
        exact ih.2.1 fun x hx => hall x (List.mem_cons_of_mem d hx)
      · intro dres h
        rw [hres] at h
        obtain ⟨pre, d0, post, hds, hpre, hid, hmem, hdres, hfst⟩ := ih.2.2 dres h
        refine ⟨d :: pre, d0, post, by rw [hds]; rfl, ?_, hid, hmem, hdres, ?_⟩
        · intro x hx
          rcases List.mem_cons.mp hx with rfl | hx'
          · exact hdnot
          · exact hpre x hx'
        · rw [hres]; simpa using hfst

/-- C3: for every doctor id and slot string, `reserve_slot` fails with a
failure result exactly when no doctor carries that id with that exact
slot in its available list, and failure mutates nothing; on success the
first matching doctor loses exactly the first occurrence of that slot,
the order of the remaining slots is preserved, and the confirmation
carries that doctor's consultation fee. -/
theorem reserve_slot_spec (s : GlobalDataStore) (did slot : String) :
    ((reserve_slot s did slot).2 = none ↔
       ∀ d ∈ s.doctors, ¬(d.id = did ∧ slot ∈ d.available_slots)) ∧
    ((reserve_slot s did slot).2 = none → (reserve_slot s did slot).1 = s) ∧
    (∀ dres, (reserve_slot s did slot).2 = some dres →
       ∃ pre d post l1 l2, s.doctors = pre ++ d :: post ∧
         (∀ x ∈ pre, ¬(x.id = did ∧ slot ∈ x.available_slots)) ∧
         d.id = did ∧
         d.available_slots = l1 ++ slot :: l2 ∧ slot ∉ l1 ∧
         dres.id = d.id ∧ dres.name = d.name ∧ dres.specialty = d.specialty ∧
         dres.consultation_fee = d.consultation_fee ∧
         dres.available_slots = l1 ++ l2 ∧
         (reserve_slot s did slot).1.doctors = pre ++ dres :: post ∧
         (reserve_slot s did slot).1.appointments = s.appointments ∧
         (reserve_slot s did slot).1.appointment_counter = s.appointment_counter) := by
  have haux := reserveSlotAux_spec did slot s.doctors
  refine ⟨⟨fun h => (haux.1 h).2, fun h => haux.2.1 h⟩, ?_, ?_⟩
  · intro h
    have h1 := (haux.1 h).1
    show ({ s with doctors := (reserveSlotAux did slot s.doctors).1 } : GlobalDataStore) = s
    rw [h1]
  · intro dres h
    obtain ⟨pre, d, post, hds, hpre, hid, hmem, hdres, hfst⟩ := haux.2.2 dres h
    obtain ⟨l1, l2, hnl1, hdecomp, herase⟩ := List.exists_erase_eq hmem
    subst hdres
    exact ⟨pre, d, post, l1, l2, hds, hpre, hid, hdecomp, hnl1, rfl, rfl, rfl, rfl,
      herase, hfst, rfl, rfl⟩

/-- Witness for C3: a failing reservation on the seed store mutates
nothing, and the successful reservation of an existing slot of dr001
produces the decomposed success conclusion. -/
theorem reserve_slot_spec_witness :
    (reserve_slot data_store "dr001" "2025-05-29 23:00").1 = data_store ∧
    ∃ pre d post l1 l2, data_store.doctors = pre ++ d :: post ∧
      (∀ x ∈ pre, ¬(x.id = "dr001" ∧ "2025-05-29 14:00" ∈ x.available_slots)) ∧
      d.id = "dr001" ∧
      d.available_slots = l1 ++ "2025-05-29 14:00" :: l2 ∧ "2025-05-29 14:00" ∉ l1 ∧
      dr001Reserved.id = d.id ∧ dr001Reserved.name = d.name ∧
      dr001Reserved.specialty = d.specialty ∧
      dr001Reserved.consultation_fee = d.consultation_fee ∧
      dr001Reserved.available_slots = l1 ++ l2 ∧
      (reserve_slot data_store "dr001" "2025-05-29 14:00").1.doctors =
        pre ++ dr001Reserved :: post ∧
      (reserve_slot data_store "dr001" "2025-05-29 14:00").1.appointments =
        data_store.appointments ∧
      (reserve_slot data_store "dr001" "2025-05-29 14:00").1.appointment_counter =
        data_store.appointment_counter :=
  ⟨(reserve_slot_spec data_store "dr001" "2025-05-29 23:00").2.1 (by decide),
   (reserve_slot_spec data_store "dr001" "2025-05-29 14:00").2.2 dr001Reserved (by decide)⟩

/-- The executable comparison agrees with the lexicographic list order:
it holds exactly when the reverse strict order fails. -/
theorem charListLe_iff (l1 l2 : List Char) : charListLe l1 l2 = true ↔ ¬ l2 < l1 := by
  induction l1 generalizing l2 with
  | nil =>
    constructor
    · intro _ h
      cases h
    · intro _
      rfl
  | cons c1 t1 ih =>
    rcases l2 with _ | ⟨c2, t2⟩
    · constructor
      · intro h
        exact absurd h (by simp [charListLe])
      · intro h
        exact absurd List.Lex.nil h
    · by_cases hc : c1 = c2
      · subst hc
        have hstep : charListLe (c1 :: t1) (c1 :: t2) = charListLe t1 t2 := by
          simp [charListLe]
        rw [hstep, ih t2]
        constructor
        · intro h hlt
          cases hlt with
          | rel h' => exact absurd h' (lt_irrefl c1)
          | cons h' => exact h h'
        · intro h hlt
          exact h (List.Lex.cons hlt)
      · have hstep : charListLe (c1 :: t1) (c2 :: t2) = decide (c1 < c2) := by
          simp [charListLe, hc]
        rw [hstep]
        rcases lt_or_gt_of_ne hc with hlt | hgt
        · simp only [decide_eq_true_eq]
          constructor
          · intro _ hl
            cases hl with
            | rel h' => exact absurd h' (lt_asymm hlt)
            | cons h' => exact absurd rfl hc
          · intro _
            exact hlt
        · simp only [decide_eq_true_eq]
          constructor
          · intro h'
            exact absurd h' (lt_asymm hgt)
          · intro h'
            refine absurd ?_ h'
            exact List.Lex.rel hgt

/-- The executable string comparison is the standard string order. -/
theorem strLe_iff (a b : String) : strLe a b = true ↔ a ≤ b := by
  rw [String.le_iff_toList_le]
  rw [show (a.toList ≤ b.toList ↔ ¬ b.toList < a.toList) from Iff.symm not_lt]
  exact charListLe_iff a.data b.data

/-- Sorting with the executable comparison produces an ascending list
for the standard string order. -/
theorem strLe_sorted_insertionSort (l : List String) :
    List.Sorted (· ≤ ·) (List.insertionSort (fun a b => strLe a b = true) l) := by
  have htot : IsTotal String (fun a b => strLe a b = true) := by
    constructor
    intro a b
    rcases le_total a b with h | h
    · exact Or.inl ((strLe_iff a b).mpr h)
    · exact Or.inr ((strLe_iff b a).mpr h)
  have htrans : IsTrans String (fun a b => strLe a b = true) := by
    constructor
    intro a b c hab hbc
    exact (strLe_iff a c).mpr (le_trans ((strLe_iff a b).mp hab) ((strLe_iff b c).mp hbc))
  have hs := @List.sorted_insertionSort String (fun a b => strLe a b = true) _ htot htrans l
  exact List.Pairwise.imp (fun hab => (strLe_iff _ _).mp hab) hs

/-- Rewriting the first matching element of a decomposed list. -/
theorem modifyFirst_append_first (p : α → Bool) (f : α → α) (pre : List α) (d : α)
    (post : List α) (hpre : ∀ x ∈ pre, p x = false) (hd : p d = true) :
    modifyFirst p f (pre ++ d :: post) = pre ++ f d :: post := by
  induction pre with
  | nil => simp [modifyFirst, hd]
  | cons x xs ih =>
    have hx := hpre x (by simp)
    simp only [List.cons_append, modifyFirst]
    rw [if_neg (by simp [hx])]
    simp only [List.append_eq]
    rw [ih (fun y hy => hpre y (by simp [hy]))]

/-- Releasing a slot rewrites exactly the first doctor carrying the
appointment's doctor id. -/
theorem releaseSlot_eq (did slot : String) (pd : List Doctor) (dd : Doctor)
    (pd2 : List Doctor) (hpre : ∀ y ∈ pd, y.id ≠ did) (hid : dd.id = did) :
    releaseSlot did slot (pd ++ dd :: pd2) =
      pd ++ { dd with
        available_slots := List.insertionSort (fun a b => strLe a b = true)
          (dd.available_slots ++ [slot]) } :: pd2 := by
  unfold releaseSlot
  exact modifyFirst_append_first _ _ pd dd pd2
    (fun y hy => by simpa using hpre y hy) (by simpa using hid)

/-- Full behaviour of the cancel loop: if no appointment carries the id
the state is untouched and not-found is reported; at the first
appointment carrying the id, an already-cancelled appointment leaves the
state untouched with a no-op report, and otherwise the slot is released
to the doctor list and exactly that appointment's status becomes
cancelled. -/
theorem cancelAux_spec (aid : String) (ds : List Doctor) (as : List Appointment) :
    ((∀ a ∈ as, a.id ≠ aid) → cancelAux aid ds as = (ds, as, .notFound)) ∧
    (∀ pre a post, as = pre ++ a :: post → (∀ x ∈ pre, x.id ≠ aid) → a.id = aid →
      (a.status = .cancelled → cancelAux aid ds as = (ds, as, .alreadyCancelled)) ∧
      (a.status ≠ .cancelled → cancelAux aid ds as =
        (releaseSlot a.doctor_id a.appointment_time ds,
         pre ++ { a with status := .cancelled } :: post, .success))) := by
  induction as with
  | nil =>
    refine ⟨fun _ => rfl, ?_⟩
    intro pre a post h
    exact absurd h (by cases pre <;> simp)
  | cons b as ih =>
    by_cases hb : (b.id == aid) = true
    · have hbid : b.id = aid := by simpa using hb
      by_cases hst : b.status = .cancelled
      · have hres : cancelAux aid ds (b :: as) = (ds, b :: as, .alreadyCancelled) := by
          simp only [cancelAux]
          rw [if_pos hb, if_pos hst]
        refine ⟨fun hall => absurd hbid (hall b (by simp)), ?_⟩
        intro pre a post hsplit hpre haid
        rcases pre with _ | ⟨x, pre'⟩
        · simp only [List.nil_append] at hsplit
          injection hsplit with h1 h2
          subst h1; subst h2
          exact ⟨fun _ => hres, fun hne => absurd hst hne⟩
        · simp only [List.cons_append] at hsplit
          injection hsplit with h1 h2
          exact absurd (h1 ▸ hbid) (hpre x (by simp))
      · have hres : cancelAux aid ds (b :: as) =
            (releaseSlot b.doctor_id b.appointment_time ds,
             { b with status := .cancelled } :: as, .success) := by
          simp only [cancelAux]
          rw [if_pos hb, if_neg hst]
        refine ⟨fun hall => absurd hbid (hall b (by simp)), ?_⟩
        intro pre a post hsplit hpre haid
        rcases pre with _ | ⟨x, pre'⟩
        · simp only [List.nil_append] at hsplit
          injection hsplit with h1 h2
          subst h1; subst h2
          exact ⟨fun hc => absurd hc hst, fun _ => hres⟩
        · simp only [List.cons_append] at hsplit
          injection hsplit with h1 h2
          exact absurd (h1 ▸ hbid) (hpre x (by simp))
    · have hbid : b.id ≠ aid := by simpa using hb
      have hres : cancelAux aid ds (b :: as) =
          ((cancelAux aid ds as).1, b :: (cancelAux aid ds as).2.1,
           (cancelAux aid ds as).2.2) := by
        simp only [cancelAux]
        rw [if_neg hb]
      refine ⟨?_, ?_⟩
      · intro hall
        have htail := ih.1 fun a ha => hall a (List.mem_cons_of_mem b ha)
        rw [hres, htail]
      · intro pre a post hsplit hpre haid
        rcases pre with _ | ⟨x, pre'⟩
        · simp only [List.nil_append] at hsplit
          injection hsplit with h1 h2
          exact absurd (h1 ▸ haid) hbid
        · simp only [List.cons_append] at hsplit
          injection hsplit with h1 h2
          subst h1
          have htail := ih.2 pre' a post h2
            (fun y hy => hpre y (List.mem_cons_of_mem _ hy)) haid
          refine ⟨fun hc => ?_, fun hc => ?_⟩
          · rw [hres, htail.1 hc]
          · rw [hres, htail.2 hc]
            rfl

/-- Unfolding equation for the cancel tool. -/
theorem cancel_appointment_eq (s : GlobalDataStore) (aid : String) :
    cancel_appointment s aid =
      ({ s with
          doctors := (cancelAux aid s.doctors s.appointments).1,
          appointments := (cancelAux aid s.doctors s.appointments).2.1 },
        (cancelAux aid s.doctors s.appointments).2.2) := rfl

/-- C2: cancelling an id absent from the ledger reports not-found and
changes no state; cancelling an already-cancelled appointment reports a
no-op and changes no state; cancelling a non-cancelled appointment
reports success, flips exactly that appointment status to cancelled,
leaves the counter alone, and rewrites the owning doctor slot list to a
sorted (hence ascending) permutation of the old list plus the released
slot. -/
theorem cancel_appointment_spec (s : GlobalDataStore) (aid : String) :
    ((∀ a ∈ s.appointments, a.id ≠ aid) → cancel_appointment s aid = (s, .notFound)) ∧
    (∀ pre a post, s.appointments = pre ++ a :: post → (∀ x ∈ pre, x.id ≠ aid) →
        a.id = aid →
      (a.status = .cancelled → cancel_appointment s aid = (s, .alreadyCancelled)) ∧
      (a.status ≠ .cancelled →
        (cancel_appointment s aid).2 = .success ∧
        (cancel_appointment s aid).1.appointments =
          pre ++ { a with status := .cancelled } :: post ∧
        (cancel_appointment s aid).1.appointment_counter = s.appointment_counter ∧
        ∀ pd dd pd2, s.doctors = pd ++ dd :: pd2 →
            (∀ y ∈ pd, y.id ≠ a.doctor_id) → dd.id = a.doctor_id →
          ∃ ns, (cancel_appointment s aid).1.doctors =
              pd ++ { dd with available_slots := ns } :: pd2 ∧
            List.Sorted (· ≤ ·) ns ∧
            List.Perm ns (a.appointment_time :: dd.available_slots))) := by
  have haux := cancelAux_spec aid s.doctors s.appointments
  constructor
  · intro h
    rw [cancel_appointment_eq, haux.1 h]
  · intro pre a post hsplit hpre haid
    have hcase := haux.2 pre a post hsplit hpre haid
    constructor
    · intro hc
      rw [cancel_appointment_eq, hcase.1 hc]
    · intro hc
      have hres := hcase.2 hc
      refine ⟨?_, ?_, ?_, ?_⟩
      · rw [cancel_appointment_eq, hres]
      · rw [cancel_appointment_eq, hres]
      · rw [cancel_appointment_eq]
      · intro pd dd pd2 hds hpd hdd
        refine ⟨List.insertionSort (fun a b => strLe a b = true)
          (dd.available_slots ++ [a.appointment_time]),
          ?_, ?_, ?_⟩
        · rw [cancel_appointment_eq, hres]
          show releaseSlot a.doctor_id a.appointment_time s.doctors = _
          rw [hds]
          exact releaseSlot_eq _ _ pd dd pd2 hpd hdd
        · exact strLe_sorted_insertionSort _
        · exact (List.perm_insertionSort _ _).trans (List.perm_append_singleton _ _)

/-- Witness for C2: on the concrete store with one booked appointment,
cancelling an unknown id is a state-preserving not-found, and cancelling
APT0001 succeeds, marks the appointment cancelled, and restores a sorted
slot list for dr001. -/
theorem cancel_appointment_spec_witness :
    cancel_appointment bookedStore "APT9999" = (bookedStore, CancelResult.notFound) ∧
    (cancel_appointment bookedStore "APT0001").2 = CancelResult.success ∧
    (cancel_appointment bookedStore "APT0001").1.appointments =
      [] ++ { aptJohn with status := AppointmentStatus.cancelled } :: [] ∧
    (cancel_appointment bookedStore "APT0001").1.appointment_counter =
      bookedStore.appointment_counter ∧
    ∃ ns, (cancel_appointment bookedStore "APT0001").1.doctors =
        [] ++ { dr001Booked with available_slots := ns } :: drRest ∧
      List.Sorted (· ≤ ·) ns ∧
      List.Perm ns (aptJohn.appointment_time :: dr001Booked.available_slots) := by
  refine ⟨(cancel_appointment_spec bookedStore "APT9999").1 (by decide), ?_⟩
  have h := (cancel_appointment_spec bookedStore "APT0001").2 [] aptJohn []
    (by decide) (by decide) (by decide)
  have h2 := h.2 (by decide)
  exact ⟨h2.1, h2.2.1, h2.2.2.1,
    h2.2.2.2 [] dr001Booked drRest (by decide) (by decide) (by decide)⟩

/-- The Boolean substring test holds exactly when the needle occurs
contiguously inside the haystack. -/
theorem containsSub_iff (needle hay : List Char) :
    containsSub needle hay = true ↔ ∃ l1 l2, hay = l1 ++ needle ++ l2 := by
  induction hay with
  | nil =>
    simp only [containsSub, List.isPrefixOf_iff_prefix]
    constructor
    · intro h
      exact ⟨[], [], by simpa using (List.prefix_nil.mp h).symm⟩
    · rintro ⟨l1, l2, hl⟩
      have h1 : l1 ++ needle = [] := (List.append_eq_nil.mp hl.symm).1
      have h2 : needle = [] := (List.append_eq_nil.mp h1).2
      simp [h2]
  | cons c t ih =>
    constructor
    · intro h
      have h' : needle.isPrefixOf (c :: t) = true ∨ containsSub needle t = true := by
        simpa [containsSub] using h
      rcases h' with hp | hc
      · obtain ⟨tail, htail⟩ := List.isPrefixOf_iff_prefix.mp hp
        exact ⟨[], tail, by simp [htail.symm]⟩
      · obtain ⟨l1, l2, hl⟩ := ih.mp hc
        exact ⟨c :: l1, l2, by simp [hl]⟩
    · rintro ⟨l1, l2, hl⟩
      rcases l1 with _ | ⟨x, l1⟩
      · have hpre : needle <+: c :: t := ⟨l2, by simpa using hl.symm⟩
        simp [containsSub, List.isPrefixOf_iff_prefix, hpre]
      · simp only [List.cons_append, List.append_assoc] at hl
        injection hl with h1 h2
        have := ih.mpr ⟨l1, l2, by simpa using h2⟩
        simp [containsSub, this]

/-- C7: with a patient-name filter, an empty ledger reports the
no-appointments result; a nonempty ledger with no matching appointment
reports the distinct none-matched result; otherwise the listing holds
exactly the appointments whose lowercased patient name contains the
lowercased filter contiguously, in ledger order (a sublist of the
ledger); and the two empty-case response texts differ for every
filter. -/
theorem list_appointments_spec (s : GlobalDataStore) (pn : String) :
    (s.appointments = [] → list_appointments s (some pn) = ListAptResult.noneScheduled) ∧
    (s.appointments ≠ [] →
      ((s.appointments.filter fun a => substrCI pn a.patient_name) = [] →
        list_appointments s (some pn) = ListAptResult.noneMatched (some pn)) ∧
      ((s.appointments.filter fun a => substrCI pn a.patient_name) ≠ [] →
        list_appointments s (some pn) =
          ListAptResult.listing (s.appointments.filter fun a => substrCI pn a.patient_name) ∧
        List.Sublist (s.appointments.filter fun a => substrCI pn a.patient_name)
          s.appointments ∧
        ∀ a, a ∈ (s.appointments.filter fun a => substrCI pn a.patient_name) ↔
          a ∈ s.appointments ∧
          ∃ l1 l2, (lowerStr a.patient_name).data = l1 ++ (lowerStr pn).data ++ l2)) ∧
    ∀ o, renderListResult ListAptResult.noneScheduled ≠
      renderListResult (ListAptResult.noneMatched o) := by
  have heq : list_appointments s (some pn) =
      if s.appointments.isEmpty then ListAptResult.noneScheduled
      else if (s.appointments.filter fun a => substrCI pn a.patient_name).isEmpty
        then ListAptResult.noneMatched (some pn)
        else ListAptResult.listing
          (s.appointments.filter fun a => substrCI pn a.patient_name) := rfl
  refine ⟨?_, ?_, ?_⟩
  · intro h
    rw [heq, if_pos (List.isEmpty_iff.mpr h)]
  · intro hne
    constructor
    · intro hf
      rw [heq, if_neg (by simpa [List.isEmpty_iff] using hne),
        if_pos (List.isEmpty_iff.mpr hf)]
    · intro hfne
      refine ⟨by rw [heq, if_neg (by simpa [List.isEmpty_iff] using hne),
          if_neg (by simpa [List.isEmpty_iff] using hfne)],
        List.filter_sublist _, ?_⟩
      intro a
      rw [List.mem_filter]
      constructor
      · rintro ⟨hmem, hp⟩
        exact ⟨hmem, (containsSub_iff _ _).mp hp⟩
      · rintro ⟨hmem, hex⟩
        exact ⟨hmem, (containsSub_iff _ _).mpr hex⟩
  · intro o h
    have hd : ("📅 No appointments scheduled").data =
        ("📅 No appointments found").data ++ (filterDesc o).data :=
      congrArg String.data h
    have h23 : ("📅 No appointments scheduled").data.take
          ("📅 No appointments found").data.length =
        ("📅 No appointments found".data ++ (filterDesc o).data).take
          ("📅 No appointments found").data.length :=
      congrArg (fun l : List Char => l.take ("📅 No appointments found").data.length) hd
    rw [List.take_left] at h23
    exact absurd h23 (by decide)

/-- Witness for C7: on the seed store (empty ledger) and on the
concrete store with the one appointment for John. -/
theorem list_appointments_spec_witness :
    list_appointments data_store (some "smith") = ListAptResult.noneScheduled ∧
    list_appointments bookedStore (some "smith") =
      ListAptResult.noneMatched (some "smith") ∧
    list_appointments bookedStore (some "joh") =
      ListAptResult.listing
        (bookedStore.appointments.filter fun a => substrCI "joh" a.patient_name) ∧
    (aptJohn ∈ bookedStore.appointments ∧
      ∃ l1 l2, (lowerStr aptJohn.patient_name).data = l1 ++ (lowerStr "joh").data ++ l2) :=
  ⟨(list_appointments_spec data_store "smith").1 rfl,
   ((list_appointments_spec bookedStore "smith").2.1 (by decide)).1 (by decide),
   (((list_appointments_spec bookedStore "joh").2.1 (by decide)).2 (by decide)).1,
   ((((list_appointments_spec bookedStore "joh").2.1 (by decide)).2 (by decide)).2.2
     aptJohn).mp (by decide)⟩

/-- Equation: a named bucket preference searches with the bucket
markers. -/
theorem pickPreferred_bucket (t : String) (markers slots : List String)
    (h : timePatterns.lookup t = some markers) :
    pickPreferred (some t) slots =
      slots.find? (fun slot => markers.any (fun m => substrOf m slot)) := by
  simp [pickPreferred, h]

/-- Equation: any other preference searches for a literal substring. -/
theorem pickPreferred_literal (t : String) (slots : List String)
    (h : timePatterns.lookup t = none) :
    pickPreferred (some t) slots = slots.find? (fun slot => substrOf t slot) := by
  simp [pickPreferred, h]

/-- The preference pick on an empty list yields nothing. -/
theorem pickPreferred_nil (pt : Option String) : pickPreferred pt [] = none := by
  rcases pt with _ | t
  · rfl
  · cases h : timePatterns.lookup t with
    | none => rw [pickPreferred_literal t [] h]; rfl
    | some m => rw [pickPreferred_bucket t m [] h]; rfl

/-- A preferred pick is one of the slots. -/
theorem pickPreferred_mem (pt : Option String) (slots : List String) (sl : String)
    (h : pickPreferred pt slots = some sl) : sl ∈ slots := by
  rcases pt with _ | t
  · exact absurd h (by simp [pickPreferred])
  · cases hlk : timePatterns.lookup t with
    | none =>
      rw [pickPreferred_literal t slots hlk] at h
      exact List.mem_of_find?_eq_some h
    | some m =>
      rw [pickPreferred_bucket t m slots hlk] at h
      exact List.mem_of_find?_eq_some h

/-- Slot selection fails exactly on an empty slot list: with any
nonempty list the fall-back to the first slot always fires. -/
theorem selectSlot_eq_none_iff (pt : Option String) (slots : List String) :
    selectSlot pt slots = none ↔ slots = [] := by
  cases hp : pickPreferred pt slots with
  | some y =>
    have hs : selectSlot pt slots = some y := by simp [selectSlot, hp]
    rw [hs]
    constructor
    · intro h; exact absurd h (by simp)
    · rintro rfl
      rw [pickPreferred_nil] at hp
      exact absurd hp (by simp)
  | none =>
    have hs : selectSlot pt slots = slots.head? := by simp [selectSlot, hp]
    rw [hs]
    cases slots <;> simp

/-- A selected slot is one of the available slots. -/
theorem selectSlot_mem (pt : Option String) (slots : List String) (sl : String)
    (h : selectSlot pt slots = some sl) : sl ∈ slots := by
  cases hp : pickPreferred pt slots with
  | some y =>
    have hs : selectSlot pt slots = some y := by simp [selectSlot, hp]
    rw [hs] at h
    obtain rfl : y = sl := by simpa using h
    exact pickPreferred_mem pt slots _ hp
  | none =>
    have hs : selectSlot pt slots = slots.head? := by simp [selectSlot, hp]
    rw [hs] at h
    exact List.mem_of_mem_head? (by simpa using h)

/-- The doctor loop picks a doctor and slot exactly when the first
doctor with a nonempty slot list exists, and it picks that doctor with
whatever slot selection yields for it. -/
theorem findBooking_eq_iff (pt : Option String) (ds : List Doctor) (d : Doctor)
    (sl : String) :
    findBooking pt ds = some (d, sl) ↔
      ds.find? (fun x => !x.available_slots.isEmpty) = some d ∧
      selectSlot pt d.available_slots = some sl := by
  induction ds with
  | nil => simp [findBooking]
  | cons x ds ih =>
    by_cases hx : x.available_slots.isEmpty = true
    · have hskip : findBooking pt (x :: ds) = findBooking pt ds := by
        simp only [findBooking]
        rw [if_pos hx]
      rw [hskip, List.find?_cons_of_neg _ (by simp [hx]), ih]
    · have hne : x.available_slots ≠ [] := by
        simpa [List.isEmpty_iff] using hx
      obtain ⟨y, hy⟩ : ∃ y, selectSlot pt x.available_slots = some y := by
        rcases ho : selectSlot pt x.available_slots with _ | y
        · exact absurd ((selectSlot_eq_none_iff pt _).mp ho) hne
        · exact ⟨y, rfl⟩
      have hstep : findBooking pt (x :: ds) = some (x, y) := by
        simp only [findBooking]
        rw [if_neg hx, hy]
      rw [hstep, List.find?_cons_of_pos _ (by simp [hx])]
      constructor
      · intro h
        obtain ⟨rfl, rfl⟩ : x = d ∧ y = sl := by simpa using h
        exact ⟨rfl, hy⟩
      · rintro ⟨hd, hsel⟩
        obtain rfl : x = d := by simpa using hd
        rw [hy] at hsel
        obtain rfl : y = sl := by simpa using hsel
        rfl

/-- A booked doctor is drawn from the candidate list and the slot from
its list. -/
theorem findBooking_mem (pt : Option String) (ds : List Doctor) (d : Doctor)
    (sl : String) (h : findBooking pt ds = some (d, sl)) :
    d ∈ ds ∧ sl ∈ d.available_slots := by
  obtain ⟨hfind, hsel⟩ := (findBooking_eq_iff pt ds d sl).mp h
  exact ⟨List.mem_of_find?_eq_some hfind, selectSlot_mem pt _ sl hsel⟩

/-- Unfolding equation for the booking tool. -/
theorem book_appointment_eq (s : GlobalDataStore) (pname : String)
    (spo pt ph : Option String) :
    book_appointment s pname spo pt ph =
      (if (candidateDoctors s spo).isEmpty then (s, BookResult.noDoctors)
       else
        match findBooking pt (candidateDoctors s spo) with
        | none => (s, BookResult.noAvailability)
        | some (d, sl) =>
          ({ s with
              doctors := modifyFirst (fun x => x.id == d.id)
                (fun x => { x with available_slots := x.available_slots.erase sl })
                s.doctors,
              appointments := s.appointments ++ [mkAppointment s pname ph d sl],
              appointment_counter := s.appointment_counter + 1 },
            BookResult.booked (mkAppointment s pname ph d sl))) := rfl

/-- C5: the booking loop walks candidate doctors in order and the first
doctor for which a slot resolves wins; since the fall-back makes slot
selection succeed on every nonempty slot list, the chosen doctor is
always the first one with a nonempty slot list, so no later doctor is
ever selected even if that later doctor would match the time
preference; booking fails to find a pair exactly when every candidate
has an empty slot list. -/
theorem findBooking_first_wins (pt : Option String) (ds : List Doctor) :
    (∀ d sl, findBooking pt ds = some (d, sl) ↔
      ds.find? (fun x => !x.available_slots.isEmpty) = some d ∧
      selectSlot pt d.available_slots = some sl) ∧
    (findBooking pt ds = none ↔ ∀ x ∈ ds, x.available_slots = []) ∧
    (∀ slots, slots ≠ [] → (selectSlot pt slots).isSome = true) ∧
    (∀ t markers slots sl, timePatterns.lookup t = some markers →
      slots.find? (fun slot => markers.any (fun m => substrOf m slot)) = some sl →
      selectSlot (some t) slots = some sl) ∧
    (∀ t slots sl, timePatterns.lookup t = none →
      slots.find? (fun slot => substrOf t slot) = some sl →
      selectSlot (some t) slots = some sl) := by
  refine ⟨findBooking_eq_iff pt ds, ?_, ?_, ?_, ?_⟩
  · induction ds with
    | nil => simp [findBooking]
    | cons x ds ih =>
      by_cases hx : x.available_slots.isEmpty = true
      · have hskip : findBooking pt (x :: ds) = findBooking pt ds := by
          simp only [findBooking]
          rw [if_pos hx]
        rw [hskip, ih]
        have hxe : x.available_slots = [] := List.isEmpty_iff.mp hx
        constructor
        · intro h y hy
          rcases List.mem_cons.mp hy with rfl | hy'
          · exact hxe
          · exact h y hy'
        · intro h y hy
          exact h y (List.mem_cons_of_mem x hy)
      · have hne : x.available_slots ≠ [] := by
          simpa [List.isEmpty_iff] using hx
        obtain ⟨y, hy⟩ : ∃ y, selectSlot pt x.available_slots = some y := by
          rcases ho : selectSlot pt x.available_slots with _ | y
          · exact absurd ((selectSlot_eq_none_iff pt _).mp ho) hne
          · exact ⟨y, rfl⟩
        have hstep : findBooking pt (x :: ds) = some (x, y) := by
          simp only [findBooking]
          rw [if_neg hx, hy]
        rw [hstep]
        constructor
        · intro h; exact absurd h (by simp)
        · intro h
          exact absurd (h x (by simp)) hne
  · intro slots hne
    rcases ho : selectSlot pt slots with _ | y
    · exact absurd ((selectSlot_eq_none_iff pt slots).mp ho) hne
    · rfl
  · intro t markers slots sl hlk hf
    have hp : pickPreferred (some t) slots = some sl := by
      rw [pickPreferred_bucket t markers slots hlk, hf]
    simp [selectSlot, hp]
  · intro t slots sl hlk hf
    have hp : pickPreferred (some t) slots = some sl := by
      rw [pickPreferred_literal t slots hlk, hf]
    simp [selectSlot, hp]

/-- Witness for C5: with a morning-only doctor listed before an
afternoon-only doctor, booking with an afternoon preference still picks
the first doctor (by fall-back), never the later doctor that matches the
preference; the remaining conjuncts at concrete inputs. -/
theorem findBooking_first_wins_witness :
    findBooking (some "afternoon") [drMorningOnly, drAfternoonOnly] =
      some (drMorningOnly, "2025-05-29 09:00") ∧
    findBooking (some "afternoon")
      [{ drMorningOnly with available_slots := [] }] = none ∧
    (selectSlot (some "afternoon") ["2025-05-29 09:00"]).isSome = true ∧
    selectSlot (some "afternoon") ["2025-05-29 13:00", "2025-05-29 14:00"] =
      some "2025-05-29 14:00" ∧
    selectSlot (some "13:00") ["2025-05-29 09:00", "2025-05-29 13:00"] =
      some "2025-05-29 13:00" := by
  have h := findBooking_first_wins (some "afternoon") [drMorningOnly, drAfternoonOnly]
  refine ⟨(h.1 drMorningOnly "2025-05-29 09:00").mpr ⟨by decide, by decide⟩, ?_, ?_, ?_, ?_⟩
  · exact (findBooking_first_wins (some "afternoon")
      [{ drMorningOnly with available_slots := [] }]).2.1.mpr (by decide)
  · exact h.2.2.1 ["2025-05-29 09:00"] (by decide)
  · exact h.2.2.2.1 "afternoon" ["14:00", "15:00", "16:00"]
      ["2025-05-29 13:00", "2025-05-29 14:00"] "2025-05-29 14:00" (by decide) (by decide)
  · exact (findBooking_first_wins (some "13:00") []).2.2.2.2 "13:00"
      ["2025-05-29 09:00", "2025-05-29 13:00"] "2025-05-29 13:00" (by decide) (by decide)

/-- C4: every appointment created by a booking with a specialty filter
belongs to a doctor of the store whose lowercased specialty contains
the lowercased filter contiguously, and the appointment copies that
doctor's id and specialty; every failing booking (no doctors or no
availability) leaves the ledger and the counter untouched. -/
theorem book_specialty_spec (s : GlobalDataStore) (pname sp : String)
    (pt ph : Option String) :
    (∀ apt, (book_appointment s pname (some sp) pt ph).2 = BookResult.booked apt →
      ∃ d, d ∈ s.doctors ∧ apt.doctor_id = d.id ∧ apt.specialty = d.specialty ∧
        ∃ l1 l2, (lowerStr d.specialty).data = l1 ++ (lowerStr sp).data ++ l2) ∧
    (∀ spo : Option String,
      (book_appointment s pname spo pt ph).2 = BookResult.noDoctors ∨
      (book_appointment s pname spo pt ph).2 = BookResult.noAvailability →
      (book_appointment s pname spo pt ph).1.appointments = s.appointments ∧
      (book_appointment s pname spo pt ph).1.appointment_counter =
        s.appointment_counter) := by
  constructor
  · intro apt h
    rw [book_appointment_eq] at h
    by_cases hde : (candidateDoctors s (some sp)).isEmpty
    · rw [if_pos hde] at h
      exact absurd h (by simp)
    · rw [if_neg hde] at h
      rcases hfb : findBooking pt (candidateDoctors s (some sp)) with _ | ⟨d, sl⟩
      · rw [hfb] at h
        exact absurd h (by simp)
      · rw [hfb] at h
        obtain rfl : mkAppointment s pname ph d sl = apt := by simpa using h
        obtain ⟨hdmem, -⟩ := findBooking_mem pt _ d sl hfb
        obtain ⟨hds, hsub⟩ := List.mem_filter.mp hdmem
        exact ⟨d, hds, rfl, rfl, (containsSub_iff _ _).mp hsub⟩
  · intro spo h
    by_cases hde : (candidateDoctors s spo).isEmpty
    · constructor <;> rw [book_appointment_eq, if_pos hde]
    · rcases hfb : findBooking pt (candidateDoctors s spo) with _ | ⟨d, sl⟩
      · constructor <;> rw [book_appointment_eq, if_neg hde, hfb]
      · exfalso
        rcases h with h | h <;> rw [book_appointment_eq, if_neg hde, hfb] at h <;>
          exact absurd h (by simp)

/-- Witness for C4: the concrete booking with filter "cardio" creates
the appointment for dr001 whose specialty contains "cardio", and a
booking with filter "dentistry" fails leaving ledger and counter
untouched. -/
theorem book_specialty_spec_witness :
    (∃ d, d ∈ data_store.doctors ∧ aptJohn.doctor_id = d.id ∧
      aptJohn.specialty = d.specialty ∧
      ∃ l1 l2, (lowerStr d.specialty).data = l1 ++ (lowerStr "cardio").data ++ l2) ∧
    ((book_appointment data_store "John" (some "dentistry") none none).1.appointments =
        data_store.appointments ∧
      (book_appointment data_store "John" (some "dentistry") none none).1.appointment_counter =
        data_store.appointment_counter) :=
  ⟨(book_specialty_spec data_store "John" "cardio" none none).1 aptJohn (by decide),
   (book_specialty_spec data_store "John" "cardio" none none).2 (some "dentistry")
     (Or.inl (by decide))⟩

/-- C9 (amended): the appointment-id extraction yields a result exactly
when the message, uppercased, contains "APT" followed by at least four
digits (so the match is case-insensitive); the result is "APT" plus the
first four of those digits, already uppercase.  Contrary to the original
claim, more than four digits after "APT" does not prevent a match: the
first four digits are taken. -/
theorem extract_appointment_id_spec (m : String) :
    ((extract_appointment_id m).isSome ↔
      ∃ l1 d1 d2 d3 d4 l2,
        (upperStr m).data = l1 ++ 'A' :: 'P' :: 'T' :: d1 :: d2 :: d3 :: d4 :: l2 ∧
        d1.isDigit ∧ d2.isDigit ∧ d3.isDigit ∧ d4.isDigit) ∧
    ∀ r, extract_appointment_id m = some r →
      ∃ l1 d1 d2 d3 d4 l2,
        (upperStr m).data = l1 ++ 'A' :: 'P' :: 'T' :: d1 :: d2 :: d3 :: d4 :: l2 ∧
        d1.isDigit ∧ d2.isDigit ∧ d3.isDigit ∧ d4.isDigit ∧
        r = String.mk ['A', 'P', 'T', d1, d2, d3, d4] := by
  have hmap : ∀ o : Option (List Char), (o.map String.mk).isSome = o.isSome := by
    intro o; cases o <;> rfl
  constructor
  · unfold extract_appointment_id
    rw [hmap]
    exact (scanApt_spec _).1
  · intro r h
    unfold extract_appointment_id at h
    obtain ⟨l, hl, rfl⟩ := Option.map_eq_some'.mp h
    obtain ⟨l1, d1, d2, d3, d4, l2, hdec, h1, h2, h3, h4, hr⟩ := (scanApt_spec _).2 l hl
    exact ⟨l1, d1, d2, d3, d4, l2, hdec, h1, h2, h3, h4, by rw [hr]⟩

/-- C9 counterexample: on a message where "APT" is followed by five
digits the extraction does not yield nothing, as the claim states; it
returns "APT" plus the first four digits. -/
theorem extract_appointment_id_counterexample :
    extract_appointment_id "cancel appointment APT12345" = some "APT1234" ∧
    extract_appointment_id "cancel appointment APT12345" ≠ none := by
  constructor
  · decide
  · decide

/-- Witness for the amended C9 theorem at a concrete lowercase input. -/
theorem extract_appointment_id_spec_witness :
    ∃ l1 d1 d2 d3 d4 l2,
      (upperStr "book apt0007 now").data =
        l1 ++ 'A' :: 'P' :: 'T' :: d1 :: d2 :: d3 :: d4 :: l2 ∧
      d1.isDigit ∧ d2.isDigit ∧ d3.isDigit ∧ d4.isDigit ∧
      "APT0007" = String.mk ['A', 'P', 'T', d1, d2, d3, d4] :=
  (extract_appointment_id_spec "book apt0007 now").2 "APT0007" (by decide)

/-- C8: on the four concrete scenario inputs the extractors return the
stated values: specialty "cardiology" from "find cardiologists", doctor
id "dr001" from "slots for dr001", appointment id "APT0001" from
"cancel appointment APT0001", and patient name "John Smith", specialty
"cardiology" and time preference "morning" from the booking message. -/
theorem extractor_scenarios :
    extract_specialty "find cardiologists" = some "cardiology" ∧
    extract_doctor_id "slots for dr001" = some "dr001" ∧
    extract_appointment_id "cancel appointment APT0001" = some "APT0001" ∧
    extract_patient_name "book appointment for John Smith with cardiologist in the morning"
      = some "John Smith" ∧
    extract_specialty "book appointment for John Smith with cardiologist in the morning"
      = some "cardiology" ∧
    extract_time_preference "book appointment for John Smith with cardiologist in the morning"
      = some "morning" := by
  refine ⟨?_, ?_, ?_, ?_, ?_, ?_⟩ <;> decide

/-- C10: the third patient-name pattern captures the one or two words
following "book", so a booking message with no patient name at all
yields the spurious name "Appointment With". -/
theorem extract_patient_name_spurious :
    extract_patient_name "book appointment with cardiologist" = some "Appointment With" := by
  decide

/-- Value of a digit character produced by the formatter. -/
theorem digitChar_val : ∀ d : Nat, d < 10 → (Nat.digitChar d).toNat - 48 = d := by
  decide

/-- Folding the digit-value step over the fuelled digit list recovers
the number (with the accumulator scaled by the width). -/
theorem decDigitsFuel_foldl :
    ∀ fuel n acc : Nat, n < fuel →
      (decDigitsFuel fuel n).foldl (fun acc c => acc * 10 + (c.toNat - 48)) acc =
        acc * 10 ^ (decDigitsFuel fuel n).length + n := by
  intro fuel
  induction fuel with
  | zero => intro n acc h; exact absurd h (by omega)
  | succ fuel ih =>
    intro n acc h
    by_cases h10 : n < 10
    · have hlist : decDigitsFuel (fuel + 1) n = [Nat.digitChar n] := by
        simp [decDigitsFuel, h10]
      rw [hlist]
      simp [List.foldl, digitChar_val n h10]
    · have hlist : decDigitsFuel (fuel + 1) n =
          decDigitsFuel fuel (n / 10) ++ [Nat.digitChar (n % 10)] := by
        simp [decDigitsFuel, h10]
      have hdiv : n / 10 < fuel := by
        have h1 : n / 10 < n := Nat.div_lt_self (by omega) (by omega)
        omega
      rw [hlist, List.foldl_append]
      rw [ih (n / 10) acc hdiv]
      have hmod : (Nat.digitChar (n % 10)).toNat - 48 = n % 10 :=
        digitChar_val (n % 10) (Nat.mod_lt n (by omega))
      simp only [List.foldl, List.length_append, List.length_cons, List.length_nil]
      rw [hmod, pow_succ]
      have := Nat.div_add_mod n 10
      ring_nf
      omega

/-- The digit value of the formatted digits is the number itself. -/
theorem digitsVal_toDecDigits (n : Nat) : digitsVal (toDecDigits n) = n := by
  have := decDigitsFuel_foldl (n + 1) n 0 (by omega)
  simpa [digitsVal, toDecDigits] using this

/-- Leading zeros do not change the digit value. -/
theorem digitsVal_replicate_zero (k : Nat) (l : List Char) :
    digitsVal (List.replicate k '0' ++ l) = digitsVal l := by
  have hz : ∀ j : Nat, (List.replicate j '0').foldl
      (fun acc c => acc * 10 + (c.toNat - 48)) 0 = 0 := by
    intro j
    induction j with
    | zero => rfl
    | succ j ihj => simpa [List.replicate_succ, List.foldl] using ihj
  unfold digitsVal
  rw [List.foldl_append, hz]

/-- The zero-padded digit list inverts back to the number. -/
theorem digitsVal_pad4 (n : Nat) : digitsVal (pad4 n) = n := by
  unfold pad4
  rw [digitsVal_replicate_zero]
  exact digitsVal_toDecDigits n

/-- Appointment-id formatting is injective, so an id is never reused. -/
theorem formatAptId_injective (m n : Nat) (h : formatAptId m = formatAptId n) :
    m = n := by
  have hd : 'A' :: 'P' :: 'T' :: pad4 m = 'A' :: 'P' :: 'T' :: pad4 n :=
    congrArg String.data h
  have hp : pad4 m = pad4 n := by simpa using hd
  have hv := congrArg digitsVal hp
  rwa [digitsVal_pad4, digitsVal_pad4] at hv

/-- The reserve loop never changes the doctor ids. -/
theorem reserveSlotAux_map_id (did slot : String) (ds : List Doctor) :
    ((reserveSlotAux did slot ds).1).map Doctor.id = ds.map Doctor.id := by
  induction ds with
  | nil => rfl
  | cons d ds ih =>
    by_cases hc : (d.id == did && d.available_slots.contains slot) = true
    · have hres : reserveSlotAux did slot (d :: ds) =
          ({ d with available_slots := d.available_slots.erase slot } :: ds,
           some { d with available_slots := d.available_slots.erase slot }) := by
        simp only [reserveSlotAux]
        rw [if_pos hc]
      rw [hres]
      simp
    · have hres : reserveSlotAux did slot (d :: ds) =
          (d :: (reserveSlotAux did slot ds).1, (reserveSlotAux did slot ds).2) := by
        simp only [reserveSlotAux]
        rw [if_neg hc]
      rw [hres]
      simpa using ih

/-- Every doctor after the reserve loop is an original doctor, either
unchanged or with one slot erased. -/
theorem reserveSlotAux_shape (did slot : String) (ds : List Doctor) :
    ∀ d' ∈ (reserveSlotAux did slot ds).1, ∃ d, d ∈ ds ∧ d'.id = d.id ∧
      (d' = d ∨ d'.available_slots = d.available_slots.erase slot) := by
  induction ds with
  | nil => simp [reserveSlotAux]
  | cons d ds ih =>
    by_cases hc : (d.id == did && d.available_slots.contains slot) = true
    · have hres : reserveSlotAux did slot (d :: ds) =
          ({ d with available_slots := d.available_slots.erase slot } :: ds,
           some { d with available_slots := d.available_slots.erase slot }) := by
        simp only [reserveSlotAux]
        rw [if_pos hc]
      intro d' hd'
      rw [hres] at hd'
      rcases List.mem_cons.mp hd' with rfl | hmem
      · exact ⟨d, by simp, rfl, Or.inr rfl⟩
      · exact ⟨d', List.mem_cons_of_mem d hmem, rfl, Or.inl rfl⟩
    · have hres : reserveSlotAux did slot (d :: ds) =
          (d :: (reserveSlotAux did slot ds).1, (reserveSlotAux did slot ds).2) := by
        simp only [reserveSlotAux]
        rw [if_neg hc]
      intro d' hd'
      rw [hres] at hd'
      rcases List.mem_cons.mp hd' with rfl | hmem
      · exact ⟨d', by simp, rfl, Or.inl rfl⟩
      · obtain ⟨d0, hd0, hid, hcase⟩ := ih d' hmem
        exact ⟨d0, List.mem_cons_of_mem d hd0, hid, hcase⟩

/-- Reserving a slot preserves the store invariant. -/
theorem inv_reserve (s : GlobalDataStore) (did slot : String) (h : StoreInv s) :
    StoreInv (reserve_slot s did slot).1 := by
  obtain ⟨hK, hD, hC, hIDs, hI, hJ⟩ := h
  refine ⟨?_, ?_, hC, hIDs, ?_, hJ⟩
  · show (((reserveSlotAux did slot s.doctors).1).map Doctor.id).Nodup
    rw [reserveSlotAux_map_id]
    exact hK
  · intro d' hd'
    obtain ⟨d, hd, hid, hcase⟩ := reserveSlotAux_shape did slot s.doctors d' hd'
    rcases hcase with rfl | hsl
    · exact hD _ hd
    · rw [hsl]
      exact (hD d hd).erase slot
  · intro a ha hst d' hd' hid
    obtain ⟨d, hd, hid', hcase⟩ := reserveSlotAux_shape did slot s.doctors d' hd'
    have hnot := hI a ha hst d hd (hid'.symm.trans hid)
    rcases hcase with rfl | hsl
    · exact hnot
    · rw [hsl]
      intro hmem
      exact hnot (List.erase_subset _ _ hmem)

/-- With unique doctor ids, a decomposition at a doctor bounds every
other doctor's id away from it. -/
theorem nodup_ids_split (ds pre post : List Doctor) (d : Doctor)
    (hds : ds = pre ++ d :: post) (hK : (ds.map Doctor.id).Nodup) :
    (∀ x ∈ pre, x.id ≠ d.id) ∧ (∀ x ∈ post, x.id ≠ d.id) := by
  subst hds
  rw [List.map_append, List.map_cons] at hK
  obtain ⟨hnp, hnc, hdisj⟩ := List.nodup_append.mp hK
  constructor
  · intro x hx heq
    exact hdisj (List.mem_map_of_mem _ hx) (by simp [heq])
  · intro x hx heq
    exact (List.nodup_cons.mp hnc).1 (heq ▸ List.mem_map_of_mem _ hx)

/-- Candidate doctors are store doctors. -/
theorem candidateDoctors_subset (s : GlobalDataStore) (spo : Option String) :
    ∀ d ∈ candidateDoctors s spo, d ∈ s.doctors := by
  intro d hd
  rcases spo with _ | sp
  · exact hd
  · exact (List.mem_filter.mp hd).1

/-- When nothing matches, the first-match rewrite is the identity. -/
theorem modifyFirst_no_match (p : α → Bool) (f : α → α) (l : List α)
    (h : ∀ x ∈ l, p x = false) : modifyFirst p f l = l := by
  induction l with
  | nil => rfl
  | cons x xs ih =>
    simp only [modifyFirst]
    rw [if_neg (by simp [h x (by simp)]), ih fun y hy => h y (by simp [hy])]

/-- Booking preserves the store invariant. -/
theorem inv_book (s : GlobalDataStore) (pname : String) (spo pt ph : Option String)
    (h : StoreInv s) : StoreInv (book_appointment s pname spo pt ph).1 := by
  obtain ⟨hK, hD, hC, hIDs, hI, hJ⟩ := h
  rw [book_appointment_eq]
  by_cases hde : (candidateDoctors s spo).isEmpty
  · rw [if_pos hde]
    exact ⟨hK, hD, hC, hIDs, hI, hJ⟩
  · rw [if_neg hde]
    rcases hfb : findBooking pt (candidateDoctors s spo) with _ | ⟨d, sl⟩
    · exact ⟨hK, hD, hC, hIDs, hI, hJ⟩
    · obtain ⟨hdc, hslmem⟩ := findBooking_mem pt _ d sl hfb
      have hd : d ∈ s.doctors := candidateDoctors_subset s spo d hdc
      obtain ⟨pre, post, hds⟩ := List.append_of_mem hd
      obtain ⟨hpreid, hpostid⟩ := nodup_ids_split s.doctors pre post d hds hK
      have hdocs : modifyFirst (fun x => x.id == d.id)
          (fun x => { x with available_slots := x.available_slots.erase sl }) s.doctors =
          pre ++ { d with available_slots := d.available_slots.erase sl } :: post := by
        rw [hds]
        exact modifyFirst_append_first _ _ pre d post
          (fun x hx => by simp [hpreid x hx]) (by simp)
      refine ⟨?_, ?_, ?_, ?_, ?_, ?_⟩
      · show ((modifyFirst (fun x => x.id == d.id)
            (fun x => { x with available_slots := x.available_slots.erase sl })
            s.doctors).map Doctor.id).Nodup
        rw [hdocs]
        rw [hds] at hK
        simpa using hK
      · intro d' hd'
        rw [show (({ s with
              doctors := modifyFirst (fun x => x.id == d.id)
                (fun x => { x with available_slots := x.available_slots.erase sl })
                s.doctors,
              appointments := s.appointments ++ [mkAppointment s pname ph d sl],
              appointment_counter := s.appointment_counter + 1 } :
            GlobalDataStore).doctors) = modifyFirst (fun x => x.id == d.id)
              (fun x => { x with available_slots := x.available_slots.erase sl })
              s.doctors from rfl, hdocs] at hd'
        rcases List.mem_append.mp hd' with hdPre | hdRest
        · exact hD d' (by rw [hds]; exact List.mem_append_left _ hdPre)
        · rcases List.mem_cons.mp hdRest with rfl | hdPost
          · exact (hD d hd).erase sl
          · refine hD d' ?_
            rw [hds]
            exact List.mem_append_right _ (List.mem_cons_of_mem _ hdPost)
      · show s.appointment_counter + 1 =
          (s.appointments ++ [mkAppointment s pname ph d sl]).length + 1
        rw [List.length_append]
        simp [hC]
      · show (s.appointments ++ [mkAppointment s pname ph d sl]).map Appointment.id =
          (List.range' 1
            (s.appointments ++ [mkAppointment s pname ph d sl]).length).map formatAptId
        rw [List.map_append, List.length_append]
        simp only [List.map_cons, List.map_nil, List.length_cons, List.length_nil,
          Nat.zero_add]
        rw [List.range'_1_concat, List.map_append, hIDs]
        have hid : (mkAppointment s pname ph d sl).id = formatAptId s.appointment_counter :=
          rfl
        rw [hid, hC, Nat.add_comm 1 s.appointments.length]
        simp
      · intro a ha hst d' hd' hid
        rw [show (({ s with
              doctors := modifyFirst (fun x => x.id == d.id)
                (fun x => { x with available_slots := x.available_slots.erase sl })
                s.doctors,
              appointments := s.appointments ++ [mkAppointment s pname ph d sl],
              appointment_counter := s.appointment_counter + 1 } :
            GlobalDataStore).doctors) = modifyFirst (fun x => x.id == d.id)
              (fun x => { x with available_slots := x.available_slots.erase sl })
              s.doctors from rfl, hdocs] at hd'
        rcases List.mem_append.mp ha with haOld | haNew
        · rcases List.mem_append.mp hd' with hdPre | hdRest
          · exact hI a haOld hst d' (by rw [hds]; exact List.mem_append_left _ hdPre) hid
          · rcases List.mem_cons.mp hdRest with rfl | hdPost
            · intro hmem
              exact hI a haOld hst d hd hid (List.erase_subset _ _ hmem)
            · refine hI a haOld hst d' ?_ hid
              rw [hds]
              exact List.mem_append_right _ (List.mem_cons_of_mem _ hdPost)
        · have haeq : a = mkAppointment s pname ph d sl := by simpa using haNew
          subst haeq
          rcases List.mem_append.mp hd' with hdPre | hdRest
          · exact absurd hid (hpreid d' hdPre)
          · rcases List.mem_cons.mp hdRest with rfl | hdPost
            · intro hmem
              exact (hD d hd).not_mem_erase hmem
            · exact absurd hid (hpostid d' hdPost)
      · show (s.appointments ++ [mkAppointment s pname ph d sl]).Pairwise _
        rw [List.pairwise_append]
        refine ⟨hJ, by simp, ?_⟩
        intro x hx b hb
        have hbeq : b = mkAppointment s pname ph d sl := by simpa using hb
        subst hbeq
        intro hstx hstb hdid hteq
        exact hI x hx hstx d hd hdid.symm (hteq ▸ hslmem)

/-- Either no appointment carries the id, or the ledger splits at the
first one that does. -/
theorem appointment_first_match_or_none (aid : String) (as : List Appointment) :
    (∀ x ∈ as, x.id ≠ aid) ∨
    ∃ pre a post, as = pre ++ a :: post ∧ (∀ x ∈ pre, x.id ≠ aid) ∧ a.id = aid := by
  induction as with
  | nil => exact Or.inl (by simp)
  | cons b as ih =>
    by_cases hb : b.id = aid
    · exact Or.inr ⟨[], b, as, rfl, by simp, hb⟩
    · rcases ih with h | ⟨pre, a, post, hsplit, hpre, haid⟩
      · refine Or.inl ?_
        intro x hx
        rcases List.mem_cons.mp hx with rfl | hx'
        · exact hb
        · exact h x hx'
      · refine Or.inr ⟨b :: pre, a, post, by rw [hsplit]; rfl, ?_, haid⟩
        intro x hx
        rcases List.mem_cons.mp hx with rfl | hx'
        · exact hb
        · exact hpre x hx'

/-- Either no doctor carries the id, or the list splits at the first
one that does. -/
theorem doctor_first_match_or_none (did : String) (ds : List Doctor) :
    (∀ x ∈ ds, x.id ≠ did) ∨
    ∃ pd dd pd2, ds = pd ++ dd :: pd2 ∧ (∀ x ∈ pd, x.id ≠ did) ∧ dd.id = did := by
  induction ds with
  | nil => exact Or.inl (by simp)
  | cons b ds ih =>
    by_cases hb : b.id = did
    · exact Or.inr ⟨[], b, ds, rfl, by simp, hb⟩
    · rcases ih with h | ⟨pd, dd, pd2, hsplit, hpd, hddid⟩
      · refine Or.inl ?_
        intro x hx
        rcases List.mem_cons.mp hx with rfl | hx'
        · exact hb
        · exact h x hx'
      · refine Or.inr ⟨b :: pd, dd, pd2, by rw [hsplit]; rfl, ?_, hddid⟩
        intro x hx
        rcases List.mem_cons.mp hx with rfl | hx'
        · exact hb
        · exact hpd x hx'

/-- Releasing a slot for an unknown doctor id changes nothing. -/
theorem releaseSlot_no_match (did slot : String) (ds : List Doctor)
    (h : ∀ x ∈ ds, x.id ≠ did) : releaseSlot did slot ds = ds := by
  unfold releaseSlot
  exact modifyFirst_no_match _ _ ds fun x hx => by simp [h x hx]

/-- Replacing the middle element of a pairwise list is safe when the
relation transfers to the replacement on both sides. -/
theorem pairwise_update_middle {R : Appointment → Appointment → Prop}
    (pre post : List Appointment) (a a' : Appointment)
    (h : List.Pairwise R (pre ++ a :: post))
    (h1 : ∀ b, R b a → R b a') (h2 : ∀ b, R a b → R a' b) :
    List.Pairwise R (pre ++ a' :: post) := by
  rw [List.pairwise_append] at h ⊢
  obtain ⟨hp, hc, hcross⟩ := h
  obtain ⟨hahead, hpost⟩ := List.pairwise_cons.mp hc
  refine ⟨hp, List.pairwise_cons.mpr ⟨fun b hb => h2 b (hahead b hb), hpost⟩, ?_⟩
  intro x hx b hb
  rcases List.mem_cons.mp hb with rfl | hb'
  · exact h1 x (hcross x hx a (by simp))
  · exact hcross x hx b (List.mem_cons_of_mem a hb')

/-- The middle element of a pairwise list relates to both sides. -/
theorem pairwise_middle_rel {R : Appointment → Appointment → Prop}
    (pre post : List Appointment) (a : Appointment)
    (h : List.Pairwise R (pre ++ a :: post)) :
    (∀ x ∈ pre, R x a) ∧ (∀ x ∈ post, R a x) := by
  rw [List.pairwise_append] at h
  obtain ⟨hp, hc, hcross⟩ := h
  obtain ⟨hahead, hpost⟩ := List.pairwise_cons.mp hc
  exact ⟨fun x hx => hcross x hx a (by simp), hahead⟩

/-- Cancelling preserves the store invariant. -/
theorem inv_cancel (s : GlobalDataStore) (aid : String) (h : StoreInv s) :
    StoreInv (cancel_appointment s aid).1 := by
  obtain ⟨hK, hD, hC, hIDs, hI, hJ⟩ := h
  rcases appointment_first_match_or_none aid s.appointments with hnone |
    ⟨pre, a, post, hsplit, hpre, haid⟩
  · have hres := (cancelAux_spec aid s.doctors s.appointments).1 hnone
    rw [cancel_appointment_eq, hres]
    exact ⟨hK, hD, hC, hIDs, hI, hJ⟩
  · by_cases hst : a.status = AppointmentStatus.cancelled
    · have hres :=
        ((cancelAux_spec aid s.doctors s.appointments).2 pre a post hsplit hpre haid).1 hst
      rw [cancel_appointment_eq, hres]
      exact ⟨hK, hD, hC, hIDs, hI, hJ⟩
    · have hres :=
        ((cancelAux_spec aid s.doctors s.appointments).2 pre a post hsplit hpre haid).2 hst
      rw [cancel_appointment_eq, hres]
      obtain ⟨a2, ha2, ha2id, ha2st, ha2did, ha2time⟩ :
          ∃ a2 : Appointment,
            ({ a with status := AppointmentStatus.cancelled } : Appointment) = a2 ∧
            a2.id = a.id ∧ a2.status = AppointmentStatus.cancelled ∧
            a2.doctor_id = a.doctor_id ∧ a2.appointment_time = a.appointment_time :=
        ⟨_, rfl, rfl, rfl, rfl, rfl⟩
      rw [ha2]
      have hamem : a ∈ s.appointments := by
        rw [hsplit]
        exact List.mem_append_right _ (by simp)
      rw [hsplit] at hJ
      have hrel := pairwise_middle_rel pre post a hJ
      rcases doctor_first_match_or_none a.doctor_id s.doctors with hdnone |
        ⟨pd, dd, pd2, hdsplit, hpd, hddid⟩
      · have hdocs : releaseSlot a.doctor_id a.appointment_time s.doctors = s.doctors :=
          releaseSlot_no_match _ _ _ hdnone
        rw [hdocs]
        refine ⟨hK, hD, ?_, ?_, ?_, ?_⟩
        · show s.appointment_counter = (pre ++ a2 :: post).length + 1
          rw [hsplit] at hC
          simpa using hC
        · show List.map Appointment.id (pre ++ a2 :: post) =
            List.map formatAptId (List.range' 1 (pre ++ a2 :: post).length)
          rw [hsplit] at hIDs
          simp only [List.map_append, List.map_cons, List.length_append,
            List.length_cons] at hIDs ⊢
          rw [ha2id]
          exact hIDs
        · intro b hb hstb d' hd' hid
          rcases List.mem_append.mp hb with hbPre | hbRest
          · exact hI b (by rw [hsplit]; exact List.mem_append_left _ hbPre) hstb d' hd' hid
          · rcases List.mem_cons.mp hbRest with rfl | hbPost
            · exact absurd ha2st hstb
            · refine hI b ?_ hstb d' hd' hid
              rw [hsplit]
              exact List.mem_append_right _ (List.mem_cons_of_mem _ hbPost)
        · refine pairwise_update_middle pre post a a2 hJ ?_ ?_
          · intro b _ _ hsta2 _
            exact absurd ha2st hsta2
          · intro b _ hsta2
            exact absurd ha2st hsta2
      · obtain ⟨ns, hns⟩ :
            ∃ ns : List String, List.insertionSort (fun a b => strLe a b = true)
              (dd.available_slots ++ [a.appointment_time]) = ns := ⟨_, rfl⟩
        obtain ⟨dd', hdd'slots⟩ :
            ∃ dd' : Doctor, ({ dd with available_slots := ns } : Doctor) = dd' := ⟨_, rfl⟩
        have hdd'id : dd'.id = dd.id := by rw [← hdd'slots]
        have hdd'sl : dd'.available_slots = List.insertionSort (fun a b => strLe a b = true)
            (dd.available_slots ++ [a.appointment_time]) := by
          rw [← hdd'slots, hns]
        have hdocsS : releaseSlot a.doctor_id a.appointment_time s.doctors =
            pd ++ dd' :: pd2 := by
          rw [hdsplit, releaseSlot_eq a.doctor_id a.appointment_time pd dd pd2 hpd hddid,
            hns, hdd'slots]
        rw [hdocsS]
        have hddmem : dd ∈ s.doctors := by
          rw [hdsplit]
          exact List.mem_append_right _ (by simp)
        have hatime_not : a.appointment_time ∉ dd.available_slots :=
          hI a hamem hst dd hddmem hddid
        have hperm : List.Perm dd'.available_slots
            (a.appointment_time :: dd.available_slots) := by
          rw [hdd'sl]
          exact (List.perm_insertionSort _ _).trans (List.perm_append_singleton _ _)
        obtain ⟨hpdid, hpd2id⟩ := nodup_ids_split s.doctors pd pd2 dd hdsplit hK
        refine ⟨?_, ?_, ?_, ?_, ?_, ?_⟩
        · show ((pd ++ dd' :: pd2).map Doctor.id).Nodup
          rw [hdsplit] at hK
          simp only [List.map_append, List.map_cons] at hK ⊢
          rw [hdd'id]
          exact hK
        · intro d' hd'
          rcases List.mem_append.mp hd' with hdPre | hdRest
          · exact hD d' (by rw [hdsplit]; exact List.mem_append_left _ hdPre)
          · rcases List.mem_cons.mp hdRest with rfl | hdPost
            · exact (hperm.nodup_iff).mpr
                (List.nodup_cons.mpr ⟨hatime_not, hD dd hddmem⟩)
            · refine hD d' ?_
              rw [hdsplit]
              exact List.mem_append_right _ (List.mem_cons_of_mem _ hdPost)
        · show s.appointment_counter = (pre ++ a2 :: post).length + 1
          rw [hsplit] at hC
          simpa using hC
        · show List.map Appointment.id (pre ++ a2 :: post) =
            List.map formatAptId (List.range' 1 (pre ++ a2 :: post).length)
          rw [hsplit] at hIDs
          simp only [List.map_append, List.map_cons, List.length_append,
            List.length_cons] at hIDs ⊢
          rw [ha2id]
          exact hIDs
        · intro b hb hstb d' hd' hid
          rcases List.mem_append.mp hb with hbPre | hbRest
          · have hbmem : b ∈ s.appointments := by
              rw [hsplit]
              exact List.mem_append_left _ hbPre
            rcases List.mem_append.mp hd' with hdPre | hdRest
            · exact hI b hbmem hstb d' (by rw [hdsplit]; exact List.mem_append_left _ hdPre)
                hid
            · rcases List.mem_cons.mp hdRest with rfl | hdPost
              · intro hmem
                have hmem2 := (hperm.mem_iff).mp hmem
                have hbdid : b.doctor_id = a.doctor_id := by
                  rw [← hid, hdd'id, hddid]
                rcases List.mem_cons.mp hmem2 with hteq | hmem3
                · exact hrel.1 b hbPre hstb hst hbdid hteq
                · have hddidb : dd.id = b.doctor_id := by rw [← hdd'id, hid]
                  exact hI b hbmem hstb dd hddmem hddidb hmem3
              · refine hI b hbmem hstb d' ?_ hid
                rw [hdsplit]
                exact List.mem_append_right _ (List.mem_cons_of_mem _ hdPost)
          · rcases List.mem_cons.mp hbRest with rfl | hbPost
            · exact absurd ha2st hstb
            · have hbmem : b ∈ s.appointments := by
                rw [hsplit]
                exact List.mem_append_right _ (List.mem_cons_of_mem _ hbPost)
              rcases List.mem_append.mp hd' with hdPre | hdRest
              · exact hI b hbmem hstb d'
                  (by rw [hdsplit]; exact List.mem_append_left _ hdPre) hid
              · rcases List.mem_cons.mp hdRest with rfl | hdPost
                · intro hmem
                  have hmem2 := (hperm.mem_iff).mp hmem
                  have hbdid : a.doctor_id = b.doctor_id := by
                    rw [← hid, hdd'id, hddid]
                  rcases List.mem_cons.mp hmem2 with hteq | hmem3
                  · exact hrel.2 b hbPost hst hstb hbdid hteq.symm
                  · have hddidb : dd.id = b.doctor_id := by rw [← hdd'id, hid]
                    exact hI b hbmem hstb dd hddmem hddidb hmem3
                · refine hI b hbmem hstb d' ?_ hid
                  rw [hdsplit]
                  exact List.mem_append_right _ (List.mem_cons_of_mem _ hdPost)
        · refine pairwise_update_middle pre post a a2 hJ ?_ ?_
          · intro b _ _ hsta2 _
            exact absurd ha2st hsta2
          · intro b _ hsta2
            exact absurd ha2st hsta2

/-- Every operation preserves the store invariant. -/
theorem inv_step (s : GlobalDataStore) (op : Op) (h : StoreInv s) :
    StoreInv (stepOp s op) := by
  cases op with
  | reserve did slot => exact inv_reserve s did slot h
  | book pn sp pt ph => exact inv_book s pn sp pt ph h
  | cancel aid => exact inv_cancel s aid h
  | listDoctors _ => exact h
  | getSlots _ => exact h
  | listAppointments _ => exact h

/-- Any operation sequence preserves the store invariant. -/
theorem inv_runOps (s : GlobalDataStore) (ops : List Op) (h : StoreInv s) :
    StoreInv (runOps s ops) := by
  induction ops generalizing s with
  | nil => exact h
  | cons op ops ih => exact ih _ (inv_step s op h)

/-- The seed store satisfies the invariant. -/
theorem inv_data_store : StoreInv data_store := by
  refine ⟨by decide, by decide, rfl, rfl, ?_, List.Pairwise.nil⟩
  intro a ha
  exact absurd ha (List.not_mem_nil a)

/-- C1: in every state reachable from the seed store the counter is one
above the ledger length and the ledger ids are exactly the APT-formatted
counters 1..N in order, so the N successful bookings received
APT0001..APT000N in strictly increasing counter order; and the
formatting is injective, so an id is never reused even when
appointments are cancelled in between. -/
theorem appointment_ids_spec (ops : List Op) :
    (runOps data_store ops).appointment_counter =
      (runOps data_store ops).appointments.length + 1 ∧
    (runOps data_store ops).appointments.map Appointment.id =
      (List.range' 1 (runOps data_store ops).appointments.length).map formatAptId ∧
    ∀ m n : Nat, formatAptId m = formatAptId n → m = n := by
  obtain ⟨-, -, hC, hIDs, -, -⟩ := inv_runOps data_store ops inv_data_store
  exact ⟨hC, hIDs, formatAptId_injective⟩

/-- Witness for C1 on a concrete run: book, cancel, book again yields
ids APT0001 then APT0002 and the counter sits one above the ledger. -/
theorem appointment_ids_spec_witness :
    (runOps data_store [Op.book "Alice" none none none, Op.cancel "APT0001",
        Op.book "Bob" none none none]).appointments.map Appointment.id =
      ["APT0001", "APT0002"] ∧
    (runOps data_store [Op.book "Alice" none none none, Op.cancel "APT0001",
        Op.book "Bob" none none none]).appointment_counter =
      (runOps data_store [Op.book "Alice" none none none, Op.cancel "APT0001",
        Op.book "Bob" none none none]).appointments.length + 1 ∧
    (7 : Nat) = 7 :=
  ⟨by decide,
   (appointment_ids_spec [Op.book "Alice" none none none, Op.cancel "APT0001",
      Op.book "Bob" none none none]).1,
   (appointment_ids_spec []).2.2 7 7 rfl⟩

/-- C6: in every state reachable from the seed store by reserve, book,
cancel and the read-only listing operations, the slot of every
non-cancelled appointment is absent from its doctor's available list. -/
theorem active_slot_unavailable (ops : List Op) :
    ∀ a ∈ (runOps data_store ops).appointments,
      a.status ≠ AppointmentStatus.cancelled →
      ∀ d ∈ (runOps data_store ops).doctors, d.id = a.doctor_id →
        a.appointment_time ∉ d.available_slots := by
  obtain ⟨-, -, -, -, hI, -⟩ := inv_runOps data_store ops inv_data_store
  exact hI

/-- Witness for C6: after the concrete booking for John, the booked
slot is gone from dr001's list. -/
theorem active_slot_unavailable_witness :
    aptJohn.appointment_time ∉ dr001Booked.available_slots :=
  active_slot_unavailable [Op.book "John" none none none] aptJohn (by decide) (by decide)
    dr001Booked (by decide) (by decide)
